import Mathlib

/-!
Verification of the `mkdocs-static-i18n` plugin (`src/mkdocs_static_i18n/plugin.py`).

The development shallowly embeds the plugin's locale-resolution and
path-derivation logic.  Python `pathlib.PurePosixPath` values are modelled by
`PyPath` (an absolute-flag plus the list of non-empty, non-`"."` components),
and the handful of `str` operations the plugin uses (`split`, `replace`,
`startswith`, `rstrip`) are modelled by structurally recursive functions over
`List Char`, so that every definition evaluates by kernel reduction.

MkDocs itself (the "Documentation Build Engine" collaborator) provides the
`File` objects the plugin consumes; its constructor is modelled by `mkFile`
below, following MkDocs' documented destination/URL derivation which the spec
restates in §4.3 ("matching the default build's path logic for non-i18n
builds").
-/

namespace MkdocsI18n

/-! ## Character and string helpers (models of the Python `str` operations) -/

def isLowerAZ (c : Char) : Bool := 'a' ≤ c && c ≤ 'z'

def isUpperAZ (c : Char) : Bool := 'A' ≤ c && c ≤ 'Z'

/-- Model of Python `str.split(sep)` for a single-character separator,
working on the character list.  `"".split` gives `[""]`, i.e. `[[]]`. -/
def splitCharList (c : Char) : List Char → List (List Char)
  | [] => [[]]
  | ch :: rest =>
    match splitCharList c rest with
    | [] => [[ch]]
    | g :: gs => if ch = c then [] :: g :: gs else (ch :: g) :: gs

/-- Join components with `"/"`; the inverse of splitting on `'/'`.
`joinParts [] = ""`. -/
def joinParts : List String → String
  | [] => ""
  | [p] => p
  | p :: rest => p ++ "/" ++ joinParts rest

/-- Model of Python `str.startswith`. -/
def strStartsWith (s pre : String) : Bool := pre.toList.isPrefixOf s.toList

/-- Model of Python `str.endswith`. -/
def strEndsWith (s suf : String) : Bool := suf.toList.isSuffixOf s.toList

/-- Index of the last occurrence of `c`, if any. -/
def findLastIdx (c : Char) : List Char → Option Nat
  | [] => none
  | ch :: rest =>
    match findLastIdx c rest with
    | some i => some (i + 1)
    | none => if ch = c then some 0 else none

/-- Model of `pathlib`'s stem/suffix split of a file name: the name splits at
its last dot `i` only when `0 < i < len - 1` (so `".bashrc"` and `"name."`
have no suffix), exactly as in CPython's `PurePath.suffix`/`PurePath.stem`. -/
def nameSplit (n : String) : String × String :=
  match findLastIdx '.' n.toList with
  | none => (n, "")
  | some i =>
    if 0 < i ∧ i < n.toList.length - 1 then
      (String.mk (n.toList.take i), String.mk (n.toList.drop i))
    else (n, "")

def nameStem (n : String) : String := (nameSplit n).1

def nameSuffix (n : String) : String := (nameSplit n).2

/-- Model of `PurePath.suffixes`:
`['.' + s for s in name.lstrip('.').split('.')[1:]]`. -/
def nameSuffixes (n : String) : List String :=
  match splitCharList '.' (n.toList.dropWhile (· = '.')) with
  | [] => []
  | _ :: rest => rest.map (fun g => String.mk ('.' :: g))

/-- Fuel-driven worker for `strReplace`; the fuel bounds the number of steps
(one character or one non-overlapping occurrence consumed per step). -/
def listReplace (old new : List Char) : Nat → List Char → List Char
  | 0, l => l
  | fuel + 1, l =>
    match l with
    | [] => []
    | ch :: rest =>
      if old ≠ [] ∧ old.isPrefixOf l then new ++ listReplace old new fuel (l.drop old.length)
      else ch :: listReplace old new fuel rest

/-- Model of Python `str.replace(old, new)`: replace every non-overlapping
occurrence, scanning left to right (for non-empty `old`). -/
def strReplace (s old new : String) : String :=
  String.mk (listReplace old.toList new.toList s.toList.length s.toList)

/-- Model of Python `str.rstrip('/')`: drop every trailing slash. -/
def rstripSlash (s : String) : String :=
  String.mk ((s.toList.reverse.dropWhile (· = '/')).reverse)

/-- `occursIn n h`: the string of characters `n` occurs contiguously inside
`h` (Python's `n in h`). -/
def occursIn (n h : List Char) : Prop := ∃ s t, s ++ n ++ t = h

/-- Executable check for `occursIn`. -/
def occursInB (n h : List Char) : Bool :=
  (List.range (h.length + 1)).any (fun i => n.isPrefixOf (h.drop i))

/-! ## `PyPath`: model of `pathlib.PurePosixPath` -/

/-- A POSIX pure path: an absolute-path flag and the parts.  Parsing drops
empty components and `"."`, as `pathlib` does. -/
structure PyPath where
  isAbs : Bool
  parts : List String
deriving DecidableEq, Repr

/-- Model of `pathlib.Path(s)` for a POSIX path string. -/
def pyPath (s : String) : PyPath :=
  { isAbs := strStartsWith s "/"
    parts := ((splitCharList '/' s.toList).map (fun g => String.mk g)).filter
      (fun c => ¬(c = "" ∨ c = ".")) }

namespace PyPath

/-- `PurePath.name`: the final component, `""` if there is none. -/
def name (p : PyPath) : String := (p.parts.getLast?).getD ""

/-- `PurePath.parent`. -/
def parent (p : PyPath) : PyPath := ⟨p.isAbs, p.parts.dropLast⟩

/-- `PurePath.with_suffix`.  (Python raises `ValueError` when the name is
empty; the plugin never reaches that case, and we leave the path unchanged.) -/
def withSuffix (p : PyPath) (suf : String) : PyPath :=
  match p.parts.getLast? with
  | none => p
  | some last => ⟨p.isAbs, p.parts.dropLast ++ [nameStem last ++ suf]⟩

/-- `PurePath.with_name` (same remark about the empty name). -/
def withName (p : PyPath) (n : String) : PyPath :=
  match p.parts.getLast? with
  | none => p
  | some _ => ⟨p.isAbs, p.parts.dropLast ++ [n]⟩

/-- `PurePath.joinpath` with a (relative) child path. -/
def joinpath (p : PyPath) (child : String) : PyPath :=
  ⟨p.isAbs, p.parts ++ (pyPath child).parts⟩

/-- `str(path)` / `PurePath.as_posix`. -/
def asPosix (p : PyPath) : String :=
  if p.parts = [] then (if p.isAbs then "/" else ".")
  else (if p.isAbs then "/" else "") ++ joinParts p.parts

/-- `PurePath.stem` of the final component. -/
def stem (p : PyPath) : String := nameStem p.name

/-- `PurePath.suffix`. -/
def suffix (p : PyPath) : String := nameSuffix p.name

/-- `PurePath.suffixes`. -/
def suffixes (p : PyPath) : List String := nameSuffixes p.name

end PyPath

/-- Model of `os.path.normpath` for POSIX paths (collapse `//` and `.` and
resolve `..` lexically; the rarely-used exactly-two-leading-slashes POSIX
special case is elided). -/
def normpathComps (isAbs : Bool) : List String → List String → List String
  | acc, [] => acc.reverse
  | acc, c :: rest =>
    if c = "" ∨ c = "." then normpathComps isAbs acc rest
    else if c = ".." then
      match acc with
      | [] => if isAbs then normpathComps isAbs [] rest else normpathComps isAbs [".."] rest
      | a :: as =>
        if a = ".." then normpathComps isAbs (c :: a :: as) rest
        else normpathComps isAbs as rest
    else normpathComps isAbs (c :: acc) rest

def normpath (s : String) : String :=
  if s = "" then "."
  else
    let abs := strStartsWith s "/"
    let comps := normpathComps abs [] ((splitCharList '/' s.toList).map (fun g => String.mk g))
    let p := (if abs then "/" else "") ++ joinParts comps
    if p = "" then "." else p

/-! ## Locale validation (`RE_LOCALE`, class `Locale`, plugin.py:58-83) -/

/-- The shape accepted by one full match of
`(^[a-z]{2}_[A-Z]{2}$)|(^[a-z]{2}$)`. -/
def localeCoreMatch : List Char → Bool
  | [a, b] => isLowerAZ a && isLowerAZ b
  | [a, b, u, d, e] => isLowerAZ a && isLowerAZ b && (u = '_') && isUpperAZ d && isUpperAZ e
  | _ => false

/-- Model of `RE_LOCALE.match(value)` (plugin.py:58,69).  Python's `$` (without
`re.MULTILINE`) also matches just before a single trailing newline, so a value
with one trailing `'\n'` after an accepted form also matches. -/
def reLocaleMatches (s : String) : Bool :=
  let cs := s.toList
  localeCoreMatch cs || (cs.getLast? = some '\n' && localeCoreMatch cs.dropLast)

/-- The error raised by `Locale._validate_locale` (an mkdocs
`ValidationError` whose message carries the offending value and the two
accepted example forms `'en' / 'en_US'`); the spec's `InvalidLocaleFormat`. -/
inductive ValidationError where
  | InvalidLocaleFormat (received : String) : ValidationError
deriving DecidableEq, Repr

/-- `Locale._validate_locale` (plugin.py:68-74). -/
def validate_locale (value : String) : Except ValidationError Unit :=
  if reLocaleMatches value then .ok () else .error (.InvalidLocaleFormat value)

/-- `Locale.run_validation` on a scalar (`str`) locale value
(plugin.py:76-79,83). -/
def run_validation_str (value : String) : Except ValidationError String :=
  match validate_locale value with
  | .ok _ => .ok value
  | .error e => .error e

/-- `Locale.run_validation` on a mapping-typed locale value: every key is
validated, the first failing key raising (plugin.py:80-83). -/
def run_validation_dict (value : List (String × String)) :
    Except ValidationError (List (String × String)) :=
  match value.findSome? (fun kv =>
      match validate_locale kv.1 with
      | .error e => some e
      | .ok _ => none) with
  | some e => .error e
  | none => .ok value

/-! ## MkDocs `File` objects (external collaborator, see spec §6) -/

/-- The slice of the MkDocs global configuration the plugin reads. -/
structure BuildConfig where
  use_directory_urls : Bool
  site_dir : String
deriving DecidableEq, Repr

/-- A MkDocs `File`.  `dest_path`/`abs_dest_path` start out as strings in
MkDocs and are converted to `Path` by the plugin; we keep them as `PyPath`
throughout (the string formatting the plugin does on them uses `str(path)`,
i.e. `asPosix`). -/
structure File where
  src_path : String
  name : String
  dest_path : PyPath
  abs_dest_path : PyPath
  url : String
deriving DecidableEq, Repr

/-- `mkdocs.utils.is_markdown_file`: extension is `.md`/`.markdown`
(lower-cased). -/
def charLower (c : Char) : Char :=
  if 'A' ≤ c ∧ c ≤ 'Z' then Char.ofNat (c.toNat + 32) else c

def isMarkdownFile (path : String) : Bool :=
  let ext := String.mk ((nameSuffix (pyPath path).name).toList.map charLower)
  ext = ".md" ∨ ext = ".markdown"

/-- `File.is_documentation_page`. -/
def File.isDoc (f : File) : Bool := isMarkdownFile f.src_path

/-- `posixpath.split`: split at the last `/`. -/
def posixSplit (s : String) : String × String :=
  let gs := (splitCharList '/' s.toList).map (fun g => String.mk g)
  (joinParts gs.dropLast, (gs.getLast?).getD "")

/-- `posixpath.join` for two components. -/
def posixJoin (a b : String) : String :=
  if strStartsWith b "/" then b
  else if a = "" ∨ strEndsWith a "/" then a ++ b
  else a ++ "/" ++ b

/-- Models the external MkDocs `File` constructor (the "Documentation Build
Engine" collaborator of spec §6) producing the files `on_files` receives:
`name` is the `splitext` stem of the basename (with `README` mapped to
`index`); a documentation page's destination is `<parent>/<name>.html` under
flat URLs or when the name is `index`, and `<parent>/<name>/index.html`
otherwise (spec §4.3's "default build path logic"); any other file is copied
as is.  The URL is the destination, with a trailing `index.html` collapsed to
the directory (or `.` at the root) under directory-style URLs. -/
def mkFile (src : String) (config : BuildConfig) : File :=
  let base := (posixSplit src).2
  let stem := nameStem base
  let nm := if stem = "index" ∨ stem = "README" then "index" else stem
  let dest :=
    if isMarkdownFile src then
      let par := (posixSplit src).1
      if config.use_directory_urls = false ∨ nm = "index" then posixJoin par (nm ++ ".html")
      else posixJoin (posixJoin par nm) "index.html"
    else src
  let url :=
    let dirn := (posixSplit dest).1
    let filen := (posixSplit dest).2
    if config.use_directory_urls ∧ filen = "index.html" then
      (if dirn = "" then "." else dirn ++ "/")
    else dest
  { src_path := src, name := nm, dest_path := pyPath dest,
    abs_dest_path := pyPath (config.site_dir ++ "/" ++ dest), url := url }

/-! ## The plugin's resolution functions (`class I18n`) -/

/-- `I18n._is_translation_for` (plugin.py:145-146):
`Path(src_path).suffixes == [f".{language}", Path(src_path).suffix]`. -/
def is_translation_for (src_path : String) (language : String) : Bool :=
  (pyPath src_path).suffixes = ["." ++ language, (pyPath src_path).suffix]

/-- `I18n._get_i18n_page` (plugin.py:188-222).  (`page_lang` is accepted but,
as in the source, unused.) -/
def get_i18n_page (page : File) (page_lang : String) (config : BuildConfig) : File :=
  let nm := nameStem page.name
  let dest := page.dest_path
  let absd := page.abs_dest_path
  if config.use_directory_urls = false then
    let dest' := (dest.withName nm).withSuffix ".html"
    let absd' := (absd.withName nm).withSuffix ".html"
    let url' := let u := strReplace page.url page.name nm
      if u = "" then "." else u
    { page with name := nm, dest_path := dest', abs_dest_path := absd', url := url' }
  else
    if nm = "index" then
      -- index files do not exhibit a named folder whereas named files do
      let dest' := dest.parent.withSuffix ".html"
      let absd' := absd.parent.withSuffix ".html"
      let url0 := dest'.parent.asPosix ++ "/"
      let url' := if url0 = "./" then "." else url0
      { page with name := nm, dest_path := dest', abs_dest_path := absd', url := url' }
    else
      let dest' := (dest.parent.withSuffix "").joinpath dest.name
      let absd' := (absd.parent.withSuffix "").joinpath absd.name
      let url' := dest'.parent.asPosix ++ "/"
      { page with name := nm, dest_path := dest', abs_dest_path := absd', url := url' }

/-- `I18n._get_i18n_asset` (plugin.py:224-244). -/
def get_i18n_asset (page : File) (page_lang : String) (config : BuildConfig)
    (sfx : String) : File :=
  let nm := nameStem page.name
  let dest := page.dest_path
  let absd := page.abs_dest_path
  if dest.parent = pyPath "." then
    -- root folder assets
    let dest' := pyPath (nm ++ sfx)
    let absd' := pyPath (absd.parent.asPosix ++ "/" ++ dest'.asPosix)
    { page with name := nm, dest_path := dest', abs_dest_path := absd',
                url := dest'.asPosix }
  else
    let dest' := (dest.parent.withSuffix "").joinpath (nm ++ sfx)
    let absd' := (absd.parent.withSuffix "").joinpath (nm ++ sfx)
    { page with name := nm, dest_path := dest', abs_dest_path := absd',
                url := dest'.asPosix }

/-- `I18n._get_translated_page` (plugin.py:152-168).  `all_languages` is a
Python `set`; at most one language can satisfy `_is_translation_for` (the
condition pins the language to the file's own tag), so modelling it as a list
and taking `find?` is order-independent. -/
def get_translated_page (all_languages : List String) (page : File) (language : String)
    (config : BuildConfig) : File :=
  let i18n_page :=
    match all_languages.find? (fun lang => is_translation_for page.src_path lang) with
    | some lang => get_i18n_page page lang config
    | none => page  -- deepcopy(page)
  let dest' := pyPath ("/" ++ language ++ "/" ++ i18n_page.dest_path.asPosix)
  let absd' := pyPath (config.site_dir ++ "/" ++ dest'.asPosix)
  let url' := if i18n_page.url = "." then language ++ "/" else language ++ "/" ++ i18n_page.url
  { i18n_page with dest_path := dest', abs_dest_path := absd', url := url' }

/-- `I18n._get_translated_asset` (plugin.py:170-186).  Note the `for`/`else`:
when no configured language tags the file, the page is returned unchanged. -/
def get_translated_asset (all_languages : List String) (page : File) (language : String)
    (config : BuildConfig) (sfx : String) : File :=
  match all_languages.find? (fun lang => is_translation_for page.src_path lang) with
  | none => page
  | some lang =>
    let i18n_page := get_i18n_asset page lang config sfx
    let dest' := pyPath ("/" ++ language ++ "/" ++ i18n_page.dest_path.asPosix)
    let absd' := pyPath (config.site_dir ++ "/" ++ dest'.asPosix)
    let url' := if i18n_page.url = "." then language ++ "/" else language ++ "/" ++ i18n_page.url
    { i18n_page with dest_path := dest', abs_dest_path := absd', url := url' }

/-- `I18n._get_page_lang` (plugin.py:246-253): the first configured language
whose tag the file carries (at most one can match). -/
def get_page_lang (all_languages : List String) (page : File) : Option String :=
  all_languages.find? (fun language =>
    (pyPath page.src_path).suffixes = ["." ++ language, (pyPath page.src_path).suffix])

/-- `I18n._get_page_from_paths` (plugin.py:255-264): first expected path that
some file's `src_path` equals, in expected-path order. -/
def get_page_from_paths (expected_paths : List PyPath) (files : List File) : Option File :=
  match expected_paths with
  | [] => none
  | e :: rest =>
    match files.find? (fun page => pyPath page.src_path = e) with
    | some p => some p
    | none => get_page_from_paths rest files

/-- `I18n._get_base_path` (plugin.py:302-311). -/
def get_base_path (all_languages : List String) (page : File) : PyPath :=
  match get_page_lang all_languages page with
  | none => (pyPath page.src_path).withSuffix ""
  | some _ => ((pyPath page.src_path).withSuffix "").withSuffix ""

/-! ## `I18n.on_files` (plugin.py:384-476) -/

/-- The plugin's own configuration (`config_scheme`): default language and the
keys of the `languages` mapping. -/
structure PluginConfig where
  default_language : String
  languages : List String
  default_language_only : Bool
deriving DecidableEq, Repr

/-- `self.all_languages = set([default_language] + list(languages))`
(plugin.py:318-320), as an insertion-ordered deduplicated list. -/
def allLanguagesOf (pc : PluginConfig) : List String :=
  (pc.default_language :: pc.languages).dedup

/-- State built by the `on_files` loop: the processed-`BasePath` key set, the
main file tree and the per-language trees (`self.i18n_files`). -/
structure OnFilesState where
  base_paths : List String
  main_files : List File
  i18n_files : List (String × List File)
deriving DecidableEq, Repr

def appendLang (m : List (String × List File)) (lang : String) (f : File) :
    List (String × List File) :=
  m.map (fun p => if p.1 = lang then (p.1, p.2 ++ [f]) else p)

def insertKey (key : String) (keys : List String) : List String :=
  if key ∈ keys then keys else keys ++ [key]

/-- One iteration of the `for fileobj in files` body (plugin.py:405-466). -/
def onFilesStep (pc : PluginConfig) (config : BuildConfig) (files : List File)
    (st : OnFilesState) (fileobj : File) : OnFilesState :=
  let all_languages := allLanguagesOf pc
  let base_path := get_base_path all_languages fileobj
  let sfx := (pyPath fileobj.src_path).suffix
  let key := base_path.asPosix ++ sfx
  if key ∈ st.base_paths then st
  else
    -- main expects .md or .default_language.md
    let main_expects := [pyPath (base_path.asPosix ++ sfx),
                         pyPath (base_path.asPosix ++ "." ++ pc.default_language ++ sfx)]
    let st1 :=
      match get_page_from_paths main_expects files with
      | none => st
      | some main_page =>
        match get_page_lang all_languages main_page with
        | none => { st with main_files := st.main_files ++ [main_page] }
        | some page_lang =>
          if fileobj.isDoc then
            { st with main_files := st.main_files ++ [get_i18n_page main_page page_lang config] }
          else
            { st with main_files :=
                st.main_files ++ [get_i18n_asset main_page page_lang config sfx] }
    -- skip language builds requested?  (note: `continue` also skips the
    -- `base_paths.add` at the end of the per-language loop)
    if pc.default_language_only then st1
    else
      all_languages.foldl (fun st language =>
        let lang_expects := [pyPath (base_path.asPosix ++ "." ++ language ++ sfx),
                             pyPath (base_path.asPosix ++ "." ++ pc.default_language ++ sfx),
                             pyPath (base_path.asPosix ++ sfx)]
        match get_page_from_paths lang_expects files with
        | none => st
        | some lang_page =>
          let entry :=
            if fileobj.isDoc then get_translated_page all_languages lang_page language config
            else get_translated_asset all_languages lang_page language config sfx
          { st with i18n_files := appendLang st.i18n_files language entry,
                    base_paths := insertKey key st.base_paths }) st1

/-- `I18n.on_files`: fold the step over the source files, starting from empty
trees (one per language in `all_languages`). -/
def onFiles (pc : PluginConfig) (config : BuildConfig) (files : List File) : OnFilesState :=
  let all_languages := allLanguagesOf pc
  files.foldl (onFilesStep pc config files)
    { base_paths := [], main_files := [],
      i18n_files := all_languages.map (fun l => (l, [])) }

/-! ## `I18nFiles` (plugin.py:86-125) -/

/-- The locale-aware file index: `locale`, `default_locale`, the
insertion-ordered `src_paths` dict (`src_path ↦ File`) of the underlying
MkDocs `Files`, and the `translated` flag used by `on_nav`. -/
structure I18nFilesIdx where
  locale : String
  default_locale : String
  src_paths : List (String × File)
  translated : Bool
deriving DecidableEq, Repr

/-- `dict.get` on the `src_paths` dict. -/
def lookupStr (m : List (String × File)) (k : String) : Option File :=
  (m.find? (fun kv => kv.1 = k)).map (fun kv => kv.2)

/-- The three candidate source paths tried by `__contains__` and
`get_file_from_path` (plugin.py:104-111,116-123). -/
def expectedSrcPaths (locale default_locale : String) (path : String) : List PyPath :=
  let p := pyPath path
  [p.withSuffix ("." ++ locale ++ p.suffix),
   p.withSuffix ("." ++ default_locale ++ p.suffix),
   p]

/-- `I18nFiles.__contains__` (plugin.py:99-112): some key of `src_paths` is
one of the three candidates. -/
def I18nFilesIdx.containsPath (idx : I18nFilesIdx) (path : String) : Bool :=
  idx.src_paths.any (fun kv =>
    (expectedSrcPaths idx.locale idx.default_locale path).contains (pyPath kv.1))

/-- `I18nFiles.get_file_from_path` (plugin.py:114-125): iterate the
`src_paths` keys in insertion order, and for the first key that equals any of
the three candidates return `src_paths.get(os.path.normpath(key))`. -/
def I18nFilesIdx.get_file_from_path (idx : I18nFilesIdx) (path : String) : Option File :=
  match idx.src_paths.find? (fun kv =>
      (expectedSrcPaths idx.locale idx.default_locale path).contains (pyPath kv.1)) with
  | none => none
  | some kv => lookupStr idx.src_paths (normpath kv.1)

/-! ## Navigation title translation (`on_nav`, plugin.py:501-522) -/

/-- A navigation node: an optional `title` (absent models both a missing
attribute and a `None` title, neither of which can be a key of the
translation table) and the `children`. -/
inductive NavItem where
  | node (title : Option String) (children : List NavItem)

def lookupTable (table : List (String × String)) (k : String) : Option String :=
  (table.find? (fun kv => kv.1 = k)).map (fun kv => kv.2)

/-- Title rewrite of one node: replaced exactly when the title is a key of
the table. -/
def retitle (table : List (String × String)) : Option String → Option String
  | none => none
  | some t =>
    match lookupTable table t with
    | some t' => some t'
    | none => some t

/-- `I18n._translate_navigation` (plugin.py:501-508), as a pure function on
the nav forest.  The source short-circuits when the per-locale table is empty
(`if translated_nav:`) and only recurses into non-empty `children`. -/
def translate_navigation (table : List (String × String)) : List NavItem → List NavItem
  | [] => []
  | NavItem.node title children :: rest =>
    if table = [] then NavItem.node title children :: rest
    else
      NavItem.node (retitle table title)
        (if children.isEmpty then children else translate_navigation table children)
        :: translate_navigation table rest

/-- `I18n.on_nav` (plugin.py:510-522): translate once per `I18nFiles`
instance, guarded by the `translated` flag and by the per-locale table being
non-empty; returns the (possibly rewritten) nav and the updated index. -/
def on_nav (nav_translations : List (String × List (String × String)))
    (files : I18nFilesIdx) (nav : List NavItem) : List NavItem × I18nFilesIdx :=
  let table := ((nav_translations.find? (fun kv => kv.1 = files.locale)).map
    (fun kv => kv.2)).getD []
  if files.translated = false ∧ table ≠ [] then
    (translate_navigation table nav, { files with translated := true })
  else
    (nav, files)

/-! ## Search deduplication (`_fix_search_duplicates`, plugin.py:524-544) -/

structure SearchEntry where
  location : String
  text : String
deriving DecidableEq, Repr

/-- The candidate locale-prefixed locations compared against an entry
(plugin.py:537-541). -/
def expected_locations (language : String) (s : SearchEntry) : List String :=
  [language ++ "/" ++ s.location,
   language ++ "/" ++ rstripSlash s.location,
   language ++ "/" ++ strReplace s.location "/#" "#"]

/-- plugin.py:542-543: location matches one of the candidates and the texts
are equal. -/
def dedupCond (language : String) (entry s : SearchEntry) : Bool :=
  (expected_locations language s).contains entry.location && (entry.text == s.text)

/-- The inner `for s_entry in search_plugin.search_index._entries` loop, which
mutates the list it iterates (`remove` shifts later elements under the
iterator's index, as in CPython).  `fuel` starts at the list's length, which
bounds the number of iterations since the index grows and the list never
does. -/
def fixLoop (language : String) (entry : SearchEntry) :
    Nat → Nat → List SearchEntry → List SearchEntry
  | 0, _, live => live
  | fuel + 1, i, live =>
    match live.get? i with
    | none => live
    | some s =>
      let live' := if dedupCond language entry s then live.erase entry else live
      fixLoop language entry fuel (i + 1) live'

/-- One step of the outer `for entry in entries` loop: entries not under
`{language}/` are skipped (plugin.py:535). -/
def fixStep (language : String) (live : List SearchEntry) (entry : SearchEntry) :
    List SearchEntry :=
  if strStartsWith entry.location (language ++ "/") then
    fixLoop language entry live.length 0 live
  else live

/-- `I18n._fix_search_duplicates` (plugin.py:524-544): iterate over a
`deepcopy` snapshot of the entries; for each entry living under
`{language}/`, remove it from the live list when a matching entry with equal
text exists.  (`list.remove` removes the first equal element; the
`ValueError` it raises when the element is already gone cannot occur in the
runs we reason about.) -/
def fix_search_duplicates (language : String) (entries : List SearchEntry) :
    List SearchEntry :=
  entries.foldl (fixStep language) entries

/-! ## Helper lemmas: splitting, joining and parsing -/

theorem splitCharList_ne_nil (c : Char) (l : List Char) : splitCharList c l ≠ [] := by
  induction l with
  | nil => simp [splitCharList]
  | cons ch rest ih =>
    simp only [splitCharList]
    cases h : splitCharList c rest with
    | nil => simp
    | cons g gs => by_cases hc : ch = c <;> simp [hc]

theorem splitCharList_append (c : Char) (xs ys : List Char) (g : List Char)
    (gs : List (List Char)) (h : c ∉ xs) (hy : splitCharList c ys = g :: gs) :
    splitCharList c (xs ++ ys) = (xs ++ g) :: gs := by
  induction xs with
  | nil => simpa using hy
  | cons x xs ih =>
    have hx : ¬x = c := fun hxc => h (by simp [hxc])
    have h' : c ∉ xs := fun hmem => h (by simp [hmem])
    rw [List.cons_append]
    simp only [splitCharList, List.append_eq, ih h', hx, if_false]
    simp

theorem splitCharList_cons_self (c : Char) (ys : List Char) :
    splitCharList c (c :: ys) = [] :: splitCharList c ys := by
  simp only [splitCharList]
  cases h : splitCharList c ys with
  | nil => exact absurd h (splitCharList_ne_nil c ys)
  | cons g gs => simp

theorem splitCharList_sep (c : Char) (xs ys : List Char) (h : c ∉ xs) :
    splitCharList c (xs ++ c :: ys) = xs :: splitCharList c ys := by
  have := splitCharList_append c xs (c :: ys) [] (splitCharList c ys) h
    (splitCharList_cons_self c ys)
  simpa using this

theorem splitCharList_of_not_mem (c : Char) (xs : List Char) (h : c ∉ xs) :
    splitCharList c xs = [xs] := by
  have := splitCharList_append c xs [] [] [] h (by simp [splitCharList])
  simpa using this

theorem toList_append (a b : String) : (a ++ b).toList = a.toList ++ b.toList := by
  simp [String.toList, String.data_append]

theorem toList_mk (l : List Char) : (String.mk l).toList = l := rfl

theorem mk_toList (s : String) : String.mk s.toList = s := by
  cases s; rfl

theorem string_eq_of_toList (a b : String) (h : a.toList = b.toList) : a = b := by
  cases a; cases b
  exact congrArg String.mk h

/-- `joinParts` of at least two components. -/
theorem joinParts_cons_cons (p q : String) (rest : List String) :
    joinParts (p :: q :: rest) = p ++ "/" ++ joinParts (q :: rest) := rfl

theorem toList_joinParts_cons_cons (p q : String) (rest : List String) :
    (joinParts (p :: q :: rest)).toList = p.toList ++ '/' :: (joinParts (q :: rest)).toList := by
  rw [joinParts_cons_cons, toList_append, toList_append]
  simp [String.toList]

/-- A "good" path component: non-empty, not `"."`, and slash-free, so that
parsing a joined path recovers the components. -/
def goodComp (s : String) : Prop := s ≠ "" ∧ s ≠ "." ∧ '/' ∉ s.toList

instance (s : String) : Decidable (goodComp s) := by unfold goodComp; infer_instance

theorem splitSlash_joinParts (ps : List String) (h : ∀ p ∈ ps, '/' ∉ p.toList)
    (hne : ps ≠ []) :
    splitCharList '/' (joinParts ps).toList = ps.map String.toList := by
  induction ps with
  | nil => exact absurd rfl hne
  | cons p rest ih =>
    cases rest with
    | nil =>
      simpa [joinParts] using splitCharList_of_not_mem '/' p.toList (h p (by simp))
    | cons q rest' =>
      rw [toList_joinParts_cons_cons,
        splitCharList_sep '/' p.toList _ (h p (by simp)),
        ih (fun x hx => h x (by simp [hx])) (by simp)]
      simp

theorem isPrefixOf_iff_leads (n l : List Char) : n.isPrefixOf l = true ↔ ∃ t, n ++ t = l := by
  induction n generalizing l with
  | nil => simp [List.isPrefixOf]
  | cons a as ih =>
    cases l with
    | nil => simp [List.isPrefixOf]
    | cons b bs =>
      simp only [List.isPrefixOf, Bool.and_eq_true, beq_iff_eq, ih]
      constructor
      · rintro ⟨rfl, t, rfl⟩
        exact ⟨t, rfl⟩
      · rintro ⟨t, ht⟩
        obtain ⟨rfl, h2⟩ : a = b ∧ as ++ t = bs := by
          constructor <;> [exact (List.cons.injEq .. ▸ ht).1; exact (List.cons.injEq .. ▸ ht).2]
        exact ⟨rfl, t, h2⟩

theorem strStartsWith_of_head_ne (s : String) (c : Char) (cs' : List Char)
    (hc : s.toList = c :: cs') (hne : ¬(c = '/')) : strStartsWith s "/" = false := by
  have h1 : ("/" : String).toList = ['/'] := rfl
  rw [strStartsWith, h1, hc]
  simp [List.isPrefixOf]
  intro h
  exact hne h.symm

theorem joinParts_toList_head (p : String) (rest : List String) :
    ∃ ts, (joinParts (p :: rest)).toList = p.toList ++ ts := by
  cases rest with
  | nil => exact ⟨[], by simp [joinParts]⟩
  | cons q rest' => exact ⟨_, toList_joinParts_cons_cons p q rest'⟩

theorem strStartsWith_joinParts_slash (ps : List String) (h : ∀ p ∈ ps, goodComp p)
    (hne : ps ≠ []) : strStartsWith (joinParts ps) "/" = false := by
  cases ps with
  | nil => exact absurd rfl hne
  | cons p rest =>
    obtain ⟨ts, hts⟩ := joinParts_toList_head p rest
    obtain ⟨hpne, -, hpsl⟩ := h p (by simp)
    cases hp : p.toList with
    | nil => exact absurd (string_eq_of_toList p "" hp) hpne
    | cons c cs' =>
      refine strStartsWith_of_head_ne _ c (cs' ++ ts) (by rw [hts, hp]; simp) ?_
      intro hcs
      exact hpsl (by rw [hp, hcs]; simp)

/-- Parsing a slash-join of good components recovers exactly the components. -/
theorem pyPath_joinParts (ps : List String) (h : ∀ p ∈ ps, goodComp p) (hne : ps ≠ []) :
    pyPath (joinParts ps) = ⟨false, ps⟩ := by
  unfold pyPath
  have h1 : strStartsWith (joinParts ps) "/" = false := strStartsWith_joinParts_slash ps h hne
  have h2 : splitCharList '/' (joinParts ps).toList = ps.map String.toList :=
    splitSlash_joinParts ps (fun p hp => (h p hp).2.2) hne
  rw [h1, h2]
  congr 1
  rw [List.map_map]
  have : (String.mk ∘ String.toList) = id := by
    funext s; exact mk_toList s
  rw [this, List.map_id]
  rw [List.filter_eq_self]
  intro a ha
  obtain ⟨h1', h2', -⟩ := h a ha
  simp [h1', h2']

theorem pyPath_single (s : String) (h : goodComp s) : pyPath s = ⟨false, [s]⟩ := by
  simpa [joinParts] using pyPath_joinParts [s] (by simpa using h) (by simp)

/-- Parsing `"/" ++ language ++ "/" ++ s`: absolute, and the head part is
`language` (whatever `s` is). -/
theorem pyPath_slash_lang (language s : String) (h1 : language ≠ "") (h2 : language ≠ ".")
    (h3 : '/' ∉ language.toList) :
    (pyPath ("/" ++ language ++ "/" ++ s)).isAbs = true
    ∧ (pyPath ("/" ++ language ++ "/" ++ s)).parts = language :: (pyPath s).parts := by
  have htl : ("/" ++ language ++ "/" ++ s).toList = '/' :: (language.toList ++ '/' :: s.toList) := by
    rw [toList_append, toList_append, toList_append]
    simp [String.toList]
  constructor
  · have h4 : ("/" : String).toList = ['/'] := rfl
    simp only [pyPath, strStartsWith, htl, h4]
    simp [List.isPrefixOf]
  · simp only [pyPath, htl]
    rw [splitCharList_cons_self, splitCharList_sep '/' language.toList s.toList h3]
    simp [mk_toList, h1, h2]

/-! ## Helper lemmas: substring occurrence -/

theorem occursIn_nil (n : List Char) (h : occursIn n []) : n = [] := by
  obtain ⟨s, t, hst⟩ := h
  have := List.append_eq_nil.mp (List.append_eq_nil.mp hst).1
  exact this.2

theorem occursIn_length_le (n h : List Char) (hocc : occursIn n h) : n.length ≤ h.length := by
  obtain ⟨s, t, rfl⟩ := hocc
  simp
  omega

theorem occursInB_iff (n h : List Char) : occursInB n h = true ↔ occursIn n h := by
  unfold occursInB occursIn
  rw [List.any_eq_true]
  constructor
  · rintro ⟨i, -, hp⟩
    obtain ⟨t, ht⟩ := (isPrefixOf_iff_leads n (h.drop i)).mp hp
    refine ⟨h.take i, t, ?_⟩
    conv_rhs => rw [← List.take_append_drop i h, ← ht]
    simp
  · rintro ⟨s, t, rfl⟩
    refine ⟨s.length, by simp; omega, ?_⟩
    rw [isPrefixOf_iff_leads]
    exact ⟨t, by rw [List.append_assoc, List.drop_left]⟩

instance occursIn.decidable (n h : List Char) : Decidable (occursIn n h) :=
  decidable_of_iff (occursInB n h = true) (occursInB_iff n h)

theorem leads_cons_of_not_mem (n : List Char) (c : Char) (ys : List Char) (hc : c ∉ n)
    (h : ∃ t, n ++ t = c :: ys) : n = [] := by
  cases n with
  | nil => rfl
  | cons a as =>
    obtain ⟨t, ht⟩ := h
    have : a = c := (List.cons.injEq .. ▸ ht).1
    exact absurd (this ▸ List.mem_cons_self a as) hc

theorem leads_append_sep (n : List Char) (c : Char) (xs ys : List Char) (hc : c ∉ n)
    (h : ∃ t, n ++ t = xs ++ c :: ys) : ∃ t, n ++ t = xs := by
  induction n generalizing xs with
  | nil => exact ⟨xs, rfl⟩
  | cons a as ih =>
    cases xs with
    | nil =>
      obtain ⟨t, ht⟩ := h
      have : a = c := (List.cons.injEq .. ▸ ht).1
      exact absurd (this ▸ List.mem_cons_self a as) hc
    | cons x xs' =>
      obtain ⟨t, ht⟩ := h
      have h1 : a = x := (List.cons.injEq .. ▸ ht).1
      have h2 : as ++ t = xs' ++ c :: ys := (List.cons.injEq .. ▸ ht).2
      obtain ⟨t', ht'⟩ := ih xs' (fun hm => hc (List.mem_cons_of_mem a hm)) ⟨t, h2⟩
      exact ⟨t', by rw [h1, List.cons_append, ht']⟩

theorem occursIn_append_sep (n : List Char) (c : Char) (xs ys : List Char) (hc : c ∉ n)
    (h : occursIn n (xs ++ c :: ys)) : occursIn n xs ∨ occursIn n ys := by
  obtain ⟨s, t, hst⟩ := h
  induction s generalizing xs with
  | nil =>
    obtain ⟨t', ht'⟩ := leads_append_sep n c xs ys hc ⟨t, by simpa using hst⟩
    exact Or.inl ⟨[], t', by simpa using ht'⟩
  | cons a s' ih =>
    cases xs with
    | nil =>
      have h2 : s' ++ n ++ t = ys := (List.cons.injEq .. ▸ hst).2
      exact Or.inr ⟨s', t, h2⟩
    | cons x xs' =>
      have h2 : s' ++ n ++ t = xs' ++ c :: ys := (List.cons.injEq .. ▸ hst).2
      rcases ih xs' h2 with h3 | h3
      · obtain ⟨s0, t0, h0⟩ := h3
        exact Or.inl ⟨x :: s0, t0, by rw [List.cons_append, List.cons_append, h0]⟩
      · exact Or.inr h3

theorem not_occursIn_joinParts (n : List Char) (ps : List String) (hsl : '/' ∉ n)
    (hne : n ≠ []) (h : ∀ p ∈ ps, ¬occursIn n p.toList) :
    ¬occursIn n (joinParts ps).toList := by
  induction ps with
  | nil =>
    intro hocc
    exact hne (occursIn_nil n (by simpa using hocc))
  | cons p rest ih =>
    cases rest with
    | nil => simpa [joinParts] using h p (by simp)
    | cons q rest' =>
      rw [toList_joinParts_cons_cons]
      intro hocc
      rcases occursIn_append_sep n '/' p.toList _ hsl hocc with h1 | h1
      · exact h p (by simp) h1
      · exact ih (fun x hx => h x (by simp [hx])) h1

theorem not_occursIn_append_sep (n : List Char) (c : Char) (xs ys : List Char) (hc : c ∉ n)
    (hne : n ≠ []) (hxs : ¬occursIn n xs) (hys : ¬occursIn n ys) :
    ¬occursIn n (xs ++ c :: ys) := fun h =>
  (occursIn_append_sep n c xs ys hc h).elim hxs hys

theorem occursIn_take (n cs : List Char) (i : Nat) (h : occursIn n (cs.take i)) :
    occursIn n cs := by
  obtain ⟨s, t, hst⟩ := h
  refine ⟨s, t ++ cs.drop i, ?_⟩
  conv_rhs => rw [← List.take_append_drop i cs, ← hst]
  simp

/-! ## Helper lemmas: `nameSplit` and `nameSuffixes` -/

theorem findLastIdx_eq_none (c : Char) (l : List Char) (h : c ∉ l) :
    findLastIdx c l = none := by
  induction l with
  | nil => rfl
  | cons ch rest ih =>
    have h1 : ¬ch = c := fun hc => h (by simp [hc])
    have h2 : c ∉ rest := fun hm => h (by simp [hm])
    simp [findLastIdx, ih h2, h1]

theorem findLastIdx_sep (c : Char) (xs ys : List Char) (hy : c ∉ ys) :
    findLastIdx c (xs ++ c :: ys) = some xs.length := by
  induction xs with
  | nil => simp [findLastIdx, findLastIdx_eq_none c ys hy]
  | cons x xs ih => simp [findLastIdx, ih]

theorem toList_tagged (a b : String) :
    (a ++ "." ++ b).toList = a.toList ++ '.' :: b.toList := by
  rw [toList_append, toList_append]
  simp [String.toList]

theorem toList_ne_nil (a : String) (ha : a ≠ "") : a.toList ≠ [] := by
  intro h
  exact ha (string_eq_of_toList a "" h)

theorem nameSplit_eq_of_findLast_none (n : String) (h : findLastIdx '.' n.toList = none) :
    nameSplit n = (n, "") := by
  unfold nameSplit
  rw [h]

theorem nameSplit_eq_of_findLast_some (n : String) (i : Nat)
    (h : findLastIdx '.' n.toList = some i) :
    nameSplit n = if 0 < i ∧ i < n.toList.length - 1 then
      (String.mk (n.toList.take i), String.mk (n.toList.drop i)) else (n, "") := by
  unfold nameSplit
  rw [h]

theorem nameSplit_tagged (a b : String) (ha : a ≠ "") (hb : '.' ∉ b.toList) (hbne : b ≠ "") :
    nameSplit (a ++ "." ++ b) = (a, "." ++ b) := by
  have hfind : findLastIdx '.' (a ++ "." ++ b).toList = some a.toList.length := by
    rw [toList_tagged]
    exact findLastIdx_sep '.' a.toList b.toList hb
  rw [nameSplit_eq_of_findLast_some _ _ hfind]
  have hal : 0 < a.toList.length := List.length_pos.mpr (toList_ne_nil a ha)
  have hbl : 0 < b.toList.length := List.length_pos.mpr (toList_ne_nil b hbne)
  have hlen : (a ++ "." ++ b).toList.length = a.toList.length + 1 + b.toList.length := by
    rw [toList_tagged]
    simp
    omega
  have hcond : 0 < a.toList.length ∧ a.toList.length < (a ++ "." ++ b).toList.length - 1 := by
    constructor
    · exact hal
    · omega
  rw [if_pos hcond]
  rw [toList_tagged, Prod.mk.injEq]
  constructor
  · rw [List.take_left]
    exact mk_toList a
  · rw [List.drop_left]
    exact string_eq_of_toList _ _ (by rw [toList_mk, toList_append]; simp [String.toList])

theorem nameSplit_plain (n : String) (h : '.' ∉ n.toList) : nameSplit n = (n, "") :=
  nameSplit_eq_of_findLast_none n (findLastIdx_eq_none '.' n.toList h)

theorem nameStem_tagged (a b : String) (ha : a ≠ "") (hb : '.' ∉ b.toList) (hbne : b ≠ "") :
    nameStem (a ++ "." ++ b) = a := by
  unfold nameStem
  rw [nameSplit_tagged a b ha hb hbne]

theorem nameSuffix_tagged (a b : String) (ha : a ≠ "") (hb : '.' ∉ b.toList) (hbne : b ≠ "") :
    nameSuffix (a ++ "." ++ b) = "." ++ b := by
  unfold nameSuffix
  rw [nameSplit_tagged a b ha hb hbne]

theorem nameStem_plain (n : String) (h : '.' ∉ n.toList) : nameStem n = n := by
  unfold nameStem
  rw [nameSplit_plain n h]

theorem not_occursIn_nameStem (n : List Char) (dn : String) (h : ¬occursIn n dn.toList) :
    ¬occursIn n (nameStem dn).toList := by
  unfold nameStem
  cases hf : findLastIdx '.' dn.toList with
  | none =>
    rw [nameSplit_eq_of_findLast_none dn hf]
    exact h
  | some i =>
    rw [nameSplit_eq_of_findLast_some dn i hf]
    by_cases hcond : 0 < i ∧ i < dn.toList.length - 1
    · rw [if_pos hcond]
      intro hocc
      exact h (occursIn_take n dn.toList i (by simpa using hocc))
    · rw [if_neg hcond]
      exact h

theorem mk_dot_cons (g : List Char) : String.mk ('.' :: g) = "." ++ String.mk g := by
  refine string_eq_of_toList _ _ ?_
  rw [toList_append]
  simp [String.toList]

theorem nameSuffixes_two (stem tag ext : String) (hs : '.' ∉ stem.toList) (hsne : stem ≠ "")
    (ht : '.' ∉ tag.toList) (he : '.' ∉ ext.toList) :
    nameSuffixes (stem ++ "." ++ tag ++ "." ++ ext) = ["." ++ tag, "." ++ ext] := by
  unfold nameSuffixes
  have htl : (stem ++ "." ++ tag ++ "." ++ ext).toList
      = stem.toList ++ '.' :: (tag.toList ++ '.' :: ext.toList) := by
    rw [toList_tagged (stem ++ "." ++ tag) ext, toList_tagged stem tag]
    simp
  rw [htl]
  have hdrop : (stem.toList ++ '.' :: (tag.toList ++ '.' :: ext.toList)).dropWhile (· = '.')
      = stem.toList ++ '.' :: (tag.toList ++ '.' :: ext.toList) := by
    cases hst : stem.toList with
    | nil => exact absurd (string_eq_of_toList stem "" hst) hsne
    | cons c cs =>
      have hcc : ¬c = '.' := by
        intro hcc
        apply hs
        rw [hst, hcc]
        exact List.mem_cons_self ..
      simp [List.dropWhile, hcc]
  rw [hdrop, splitCharList_sep '.' stem.toList _ hs,
    splitCharList_sep '.' tag.toList ext.toList ht,
    splitCharList_of_not_mem '.' ext.toList he]
  simp [mk_dot_cons, mk_toList]

theorem nameSuffixes_one (stem ext : String) (hs : '.' ∉ stem.toList) (hsne : stem ≠ "")
    (he : '.' ∉ ext.toList) :
    nameSuffixes (stem ++ "." ++ ext) = ["." ++ ext] := by
  unfold nameSuffixes
  rw [toList_tagged stem ext]
  have hdrop : (stem.toList ++ '.' :: ext.toList).dropWhile (· = '.')
      = stem.toList ++ '.' :: ext.toList := by
    cases hst : stem.toList with
    | nil => exact absurd (string_eq_of_toList stem "" hst) hsne
    | cons c cs =>
      have hcc : ¬c = '.' := by
        intro hcc
        apply hs
        rw [hst, hcc]
        exact List.mem_cons_self ..
      simp [List.dropWhile, hcc]
  rw [hdrop, splitCharList_sep '.' stem.toList ext.toList hs,
    splitCharList_of_not_mem '.' ext.toList he]
  simp [mk_dot_cons, mk_toList]

/-! ## Helper lemmas: `PyPath` operations on explicit part lists -/

theorem parent_concat (b : Bool) (ps : List String) (x : String) :
    PyPath.parent ⟨b, ps ++ [x]⟩ = ⟨b, ps⟩ := by
  simp [PyPath.parent]

theorem name_concat (b : Bool) (ps : List String) (x : String) :
    PyPath.name ⟨b, ps ++ [x]⟩ = x := by
  simp [PyPath.name]

theorem withSuffix_concat (b : Bool) (ps : List String) (x suf : String) :
    PyPath.withSuffix ⟨b, ps ++ [x]⟩ suf = ⟨b, ps ++ [nameStem x ++ suf]⟩ := by
  simp [PyPath.withSuffix, List.getLast?_concat, List.dropLast_concat]

theorem asPosix_rel_nil : PyPath.asPosix ⟨false, []⟩ = "." := rfl

theorem asPosix_rel (ps : List String) (hne : ps ≠ []) :
    PyPath.asPosix ⟨false, ps⟩ = joinParts ps := by
  simp [PyPath.asPosix, hne]

theorem str_append_empty (s : String) : s ++ "" = s := by
  refine string_eq_of_toList _ _ ?_
  rw [toList_append]
  simp [String.toList]

theorem str_ne_empty_of_toList (s : String) (c : Char) (cs : List Char)
    (h : s.toList = c :: cs) : s ≠ "" := by
  intro he
  rw [he] at h
  exact absurd h (by simp [String.toList])

theorem tagged_ne_empty (a b : String) : a ++ "." ++ b ≠ "" := by
  refine str_ne_empty_of_toList _ ?_ ?_ ?_
  · exact (a.toList ++ '.' :: b.toList).headD '.'
  · exact (a.toList ++ '.' :: b.toList).tail
  · rw [toList_tagged]
    cases a.toList <;> simp

theorem dot_append_inj (a b : String) (h : "." ++ a = "." ++ b) : a = b := by
  have := congrArg String.toList h
  rw [toList_append, toList_append] at this
  exact string_eq_of_toList a b (by simpa [String.toList] using this)

theorem joinParts_ne_dot (ds : List String) (h : ∀ c ∈ ds, goodComp c) (hne : ds ≠ []) :
    joinParts ds ≠ "." := by
  cases ds with
  | nil => exact absurd rfl hne
  | cons d rest =>
    cases rest with
    | nil => simpa [joinParts] using (h d (by simp)).2.1
    | cons q r =>
      intro heq
      have htl := congrArg String.toList heq
      rw [toList_joinParts_cons_cons] at htl
      have h2 : ("." : String).toList = ['.'] := rfl
      rw [h2] at htl
      have hlen := congrArg List.length htl
      have hd1 : 0 < d.toList.length :=
        List.length_pos.mpr (toList_ne_nil d (h d (by simp)).1)
      rw [List.length_append, List.length_cons, List.length_singleton] at hlen
      omega

theorem append_slash_cancel (a b : String) (h : a ++ "/" = b ++ "/") : a = b := by
  have := congrArg String.toList h
  rw [toList_append, toList_append] at this
  exact string_eq_of_toList a b (List.append_cancel_right this)

/-! ## Helper lemmas: `find?` with a pinned predicate -/

theorem find?_of_pred_iff {α : Type} (p : α → Bool) (a : α) (l : List α)
    (hp : ∀ x, p x = true ↔ x = a) (ha : a ∈ l) : l.find? p = some a := by
  induction l with
  | nil => cases ha
  | cons x xs ih =>
    by_cases hx : x = a
    · subst hx
      rw [List.find?_cons_of_pos _ ((hp x).mpr rfl)]
    · rw [List.find?_cons_of_neg _ (fun hpx => hx ((hp x).mp hpx))]
      refine ih ?_
      rcases List.mem_cons.mp ha with h | h
      · exact absurd h.symm hx
      · exact h

theorem find?_none_of_pred_iff {α : Type} (p : α → Bool) (a : α) (l : List α)
    (hp : ∀ x, p x = true ↔ x = a) (ha : a ∉ l) : l.find? p = none :=
  List.find?_eq_none.mpr (fun x hx hpx => ha (((hp x).mp hpx) ▸ hx))

/-! ## Helper lemmas: `is_translation_for` on a tagged name -/

theorem is_translation_for_iff (src : String) (stem tag ext : String)
    (hname : (pyPath src).name = stem ++ "." ++ tag ++ "." ++ ext)
    (hs : '.' ∉ stem.toList) (hsne : stem ≠ "")
    (ht : '.' ∉ tag.toList) (he : '.' ∉ ext.toList) (hene : ext ≠ "") :
    ∀ l : String, is_translation_for src l = true ↔ l = tag := by
  intro l
  unfold is_translation_for PyPath.suffixes PyPath.suffix
  rw [hname]
  have hsfxs : nameSuffixes (stem ++ "." ++ tag ++ "." ++ ext) = ["." ++ tag, "." ++ ext] :=
    nameSuffixes_two stem tag ext hs hsne ht he
  have hsfx : nameSuffix (stem ++ "." ++ tag ++ "." ++ ext) = "." ++ ext :=
    nameSuffix_tagged (stem ++ "." ++ tag) ext (tagged_ne_empty stem tag) he hene
  rw [hsfxs, hsfx, decide_eq_true_eq]
  constructor
  · intro hl
    have h1 : ("." ++ tag : String) = "." ++ l := (List.cons.injEq .. ▸ hl).1
    exact (dot_append_inj tag l h1).symm
  · rintro rfl
    rfl

/-- No language at all tags the file: `find?` over any language list is
`none`. -/
theorem find?_translation_none (src : String) (stem tag ext : String) (langs : List String)
    (hname : (pyPath src).name = stem ++ "." ++ tag ++ "." ++ ext)
    (hs : '.' ∉ stem.toList) (hsne : stem ≠ "")
    (ht : '.' ∉ tag.toList) (he : '.' ∉ ext.toList) (hene : ext ≠ "")
    (htag : tag ∉ langs) :
    langs.find? (fun l => is_translation_for src l) = none :=
  find?_none_of_pred_iff _ tag langs
    (is_translation_for_iff src stem tag ext hname hs hsne ht he hene) htag

theorem find?_translation_some (src : String) (stem tag ext : String) (langs : List String)
    (hname : (pyPath src).name = stem ++ "." ++ tag ++ "." ++ ext)
    (hs : '.' ∉ stem.toList) (hsne : stem ≠ "")
    (ht : '.' ∉ tag.toList) (he : '.' ∉ ext.toList) (hene : ext ≠ "")
    (htag : tag ∈ langs) :
    langs.find? (fun l => is_translation_for src l) = some tag :=
  find?_of_pred_iff _ tag langs
    (is_translation_for_iff src stem tag ext hname hs hsne ht he hene) htag

/-- A plain (untagged, single-suffix) name is a translation for no language. -/
theorem is_translation_for_plain (src : String) (stem ext : String)
    (hname : (pyPath src).name = stem ++ "." ++ ext)
    (hs : '.' ∉ stem.toList) (hsne : stem ≠ "") (he : '.' ∉ ext.toList) :
    ∀ l : String, is_translation_for src l = false := by
  intro l
  unfold is_translation_for PyPath.suffixes PyPath.suffix
  rw [hname, nameSuffixes_one stem ext hs hsne he]
  simp

/-! ## Characterization of `_get_i18n_page` URLs under directory-style URLs -/

/-- Under directory-style URLs, for a page whose MkDocs destination has the
shape `ds/<dn>/index.html`, `_get_i18n_page` derives the URL `ds/` (collapsed
to `"."` at the root) for an `index`-stemmed document, and
`ds/<stripped dn>/` otherwise. -/
theorem get_i18n_page_url (page : File) (lang : String) (config : BuildConfig)
    (hdir : config.use_directory_urls = true) (ds : List String) (dn : String)
    (hdest : page.dest_path = ⟨false, ds ++ [dn, "index.html"]⟩)
    (hds : ∀ c ∈ ds, goodComp c) :
    (get_i18n_page page lang config).url =
      if nameStem page.name = "index" then
        (if ds = [] then "." else joinParts ds ++ "/")
      else joinParts (ds ++ [nameStem dn]) ++ "/" := by
  have hsplit : ds ++ [dn, "index.html"] = (ds ++ [dn]) ++ ["index.html"] := by simp
  unfold get_i18n_page
  rw [hdir]
  simp only [Bool.true_eq_false, if_false]
  by_cases hnm : nameStem page.name = "index"
  · rw [if_pos hnm, if_pos hnm]
    simp only [hdest, hsplit, parent_concat]
    rw [withSuffix_concat]
    cases hd : ds with
    | nil =>
      have h1 : PyPath.parent ⟨false, [] ++ [nameStem dn ++ ".html"]⟩ = ⟨false, []⟩ :=
        parent_concat false [] (nameStem dn ++ ".html")
      rw [h1, asPosix_rel_nil]
      have h2 : ("." ++ "/" : String) = "./" := by decide
      rw [h2]
      simp
    | cons d rest =>
      rw [← hd]
      have h1 : PyPath.parent ⟨false, ds ++ [nameStem dn ++ ".html"]⟩ = ⟨false, ds⟩ :=
        parent_concat false ds (nameStem dn ++ ".html")
      rw [h1, asPosix_rel ds (by rw [hd]; simp)]
      have hne' : joinParts ds ++ "/" ≠ "./" := by
        intro heq
        have : ("./" : String) = "." ++ "/" := by decide
        rw [this] at heq
        exact joinParts_ne_dot ds hds (by rw [hd]; simp) (append_slash_cancel _ _ heq)
      rw [if_neg hne', if_neg (by rw [hd]; simp : ¬ds = [])]
  · rw [if_neg hnm, if_neg hnm]
    simp only [hdest, hsplit, parent_concat, name_concat]
    rw [withSuffix_concat, str_append_empty]
    have hidx : pyPath "index.html" = ⟨false, ["index.html"]⟩ := by decide
    simp only [PyPath.joinpath, hidx]
    have h1 : PyPath.parent ⟨false, (ds ++ [nameStem dn]) ++ ["index.html"]⟩
        = ⟨false, ds ++ [nameStem dn]⟩ := parent_concat false (ds ++ [nameStem dn]) "index.html"
    rw [h1, asPosix_rel (ds ++ [nameStem dn]) (by simp)]

/-! ## Characterizations of asset derivation and locale prefixing -/

theorem PyPath.eq_of (p : PyPath) (b : Bool) (ps : List String) (h1 : p.isAbs = b)
    (h2 : p.parts = ps) : p = ⟨b, ps⟩ := by
  cases p
  simp only at h1 h2
  rw [h1, h2]

/-- Root-level asset derivation: destination and URL are just
`<stripped name><suffix>`. -/
theorem get_i18n_asset_root (page : File) (lang : String) (config : BuildConfig)
    (sfx : String) (fn : String) (hdest : page.dest_path = ⟨false, [fn]⟩) :
    (get_i18n_asset page lang config sfx).dest_path = pyPath (nameStem page.name ++ sfx)
    ∧ (get_i18n_asset page lang config sfx).url
        = (pyPath (nameStem page.name ++ sfx)).asPosix := by
  unfold get_i18n_asset
  rw [hdest]
  have hroot : (⟨false, [fn]⟩ : PyPath).parent = pyPath "." := by
    have h0 : pyPath "." = ⟨false, []⟩ := by decide
    rw [h0]
    simpa using parent_concat false [] fn
  rw [if_pos hroot]
  exact ⟨rfl, rfl⟩

/-- Every page translated into a locale tree has an absolute destination
beginning with the language part. -/
theorem get_translated_page_dest (all_languages : List String) (page : File) (language : String)
    (config : BuildConfig) (h1 : language ≠ "") (h2 : language ≠ ".")
    (h3 : '/' ∉ language.toList) :
    (get_translated_page all_languages page language config).dest_path.isAbs = true
    ∧ ∃ qs, (get_translated_page all_languages page language config).dest_path.parts
        = language :: qs := by
  unfold get_translated_page
  obtain ⟨hA, hP⟩ := pyPath_slash_lang language
    ((match all_languages.find? (fun lang => is_translation_for page.src_path lang) with
      | some lang => get_i18n_page page lang config
      | none => page).dest_path.asPosix) h1 h2 h3
  exact ⟨hA, _, hP⟩

/-- A locale-tagged asset translated into a locale tree likewise gains the
language prefix on its destination. -/
theorem get_translated_asset_tagged_dest (all_languages : List String) (page : File)
    (language : String) (config : BuildConfig) (sfx : String) (tag : String)
    (hfind : all_languages.find? (fun l => is_translation_for page.src_path l) = some tag)
    (h1 : language ≠ "") (h2 : language ≠ ".") (h3 : '/' ∉ language.toList) :
    (get_translated_asset all_languages page language config sfx).dest_path.isAbs = true
    ∧ (get_translated_asset all_languages page language config sfx).dest_path.parts
        = language :: (pyPath ((get_i18n_asset page tag config sfx).dest_path.asPosix)).parts := by
  unfold get_translated_asset
  rw [hfind]
  exact pyPath_slash_lang language _ h1 h2 h3

/-- An asset carrying no configured language tag is returned unchanged by
`_get_translated_asset` (the `for`/`else` at plugin.py:172-177). -/
theorem get_translated_asset_untagged (all_languages : List String) (page : File)
    (language : String) (config : BuildConfig) (sfx : String)
    (hnone : ∀ l ∈ all_languages, is_translation_for page.src_path l = false) :
    get_translated_asset all_languages page language config sfx = page := by
  unfold get_translated_asset
  rw [List.find?_eq_none.mpr (fun x hx => by rw [hnone x hx]; simp)]

/-! ## Navigation translation: spec-side description and equivalence -/

/-- The translation step exactly as the spec words it (§4.4 step 5): "for
each nav node, if its title exists as a key in the configured per-locale
title-translation table, replace it; recurse into children" — with no
empty-table or empty-children short-circuits. -/
def specNavTranslate (table : List (String × String)) : List NavItem → List NavItem
  | [] => []
  | NavItem.node title children :: rest =>
    NavItem.node (retitle table title) (specNavTranslate table children)
      :: specNavTranslate table rest

theorem retitle_nil (t : Option String) : retitle [] t = t := by
  cases t <;> rfl

theorem specNavTranslate_nil (nav : List NavItem) : specNavTranslate [] nav = nav := by
  induction nav using specNavTranslate.induct [] with
  | case1 => simp [specNavTranslate]
  | case2 title children rest ih1 ih2 =>
    rw [specNavTranslate, ih1, ih2, retitle_nil]

/-- The plugin's recursive title rewrite computes exactly the spec's
unconditional node-wise rewrite. -/
theorem translate_navigation_eq_spec (table : List (String × String)) (nav : List NavItem) :
    translate_navigation table nav = specNavTranslate table nav := by
  induction nav using translate_navigation.induct table with
  | case1 => simp [translate_navigation, specNavTranslate]
  | case2 title children rest htab =>
    subst htab
    rw [translate_navigation, if_pos rfl, specNavTranslate_nil]
  | case3 title children rest htab ih1 ih2 =>
    rw [translate_navigation, if_neg htab, specNavTranslate, ← ih1, ← ih2]
    by_cases hc : children.isEmpty
    · rw [if_pos hc]
      have : children = [] := by simpa [List.isEmpty_iff] using hc
      subst this
      rw [translate_navigation]
    · rw [if_neg hc]

/-! ## Claim C2: locale validation -/

/-- C2: for every string `c`, `Locale` validation succeeds iff `c` matches
`RE_LOCALE` — i.e. (with Python's `$` also accepting one trailing newline)
iff `c` has the `[a-z]{2}` or `[a-z]{2}_[A-Z]{2}` shape; a failure carries
the offending value in the `InvalidLocaleFormat` error; `"en"` and `"pt_BR"`
succeed while `"EN"`, `"eng"` and `"en-US"` fail; and a mapping-typed locale
value validates iff every key matches. -/
theorem claim_C2 :
    (∀ c : String, run_validation_str c = .ok c ↔ reLocaleMatches c = true)
    ∧ (∀ c : String, reLocaleMatches c = true ↔
        (localeCoreMatch c.toList = true
         ∨ (c.toList.getLast? = some '\n' ∧ localeCoreMatch c.toList.dropLast = true)))
    ∧ (∀ c : String, reLocaleMatches c = false →
        run_validation_str c = .error (.InvalidLocaleFormat c))
    ∧ (run_validation_str "en" = .ok "en" ∧ run_validation_str "pt_BR" = .ok "pt_BR"
       ∧ run_validation_str "EN" = .error (.InvalidLocaleFormat "EN")
       ∧ run_validation_str "eng" = .error (.InvalidLocaleFormat "eng")
       ∧ run_validation_str "en-US" = .error (.InvalidLocaleFormat "en-US"))
    ∧ (∀ m : List (String × String),
        run_validation_dict m = .ok m ↔ ∀ kv ∈ m, reLocaleMatches kv.1 = true) := by
  have hstep : ∀ kv : String × String,
      (match validate_locale kv.1 with
       | .error e => some e
       | .ok _ => none) = none ↔ reLocaleMatches kv.1 = true := by
    intro kv
    unfold validate_locale
    by_cases h : reLocaleMatches kv.1 = true <;> simp [h]
  refine ⟨?_, ?_, ?_, ⟨rfl, rfl, rfl, rfl, rfl⟩, ?_⟩
  · intro c
    unfold run_validation_str validate_locale
    by_cases h : reLocaleMatches c = true <;> simp [h]
  · intro c
    unfold reLocaleMatches
    simp
  · intro c h
    unfold run_validation_str validate_locale
    simp [h]
  · intro m
    have key : run_validation_dict m = .ok m ↔
        m.findSome? (fun kv =>
          match validate_locale kv.1 with
          | .error e => some e
          | .ok _ => none) = none := by
      unfold run_validation_dict
      cases hf : m.findSome? (fun kv =>
          match validate_locale kv.1 with
          | .error e => some e
          | .ok _ => none) with
      | none => simp
      | some e => simp
    rw [key, List.findSome?_eq_none_iff]
    constructor
    · intro h kv hkv
      exact (hstep kv).mp (h kv hkv)
    · intro h kv hkv
      exact (hstep kv).mpr (h kv hkv)

/-- Witness for C2: the validation evaluated at concrete scalar and mapping
inputs. -/
theorem claim_C2_witness :
    run_validation_str "en" = .ok "en"
    ∧ run_validation_dict [("en", "English"), ("fr", "French")]
        = .ok [("en", "English"), ("fr", "French")] :=
  ⟨(claim_C2.1 "en").mpr (by decide),
   (claim_C2.2.2.2.2 [("en", "English"), ("fr", "French")]).mpr (by decide)⟩

/-! ## Claim C1: the fallback chain -/

/-- Directory-style build configuration used by the concrete examples. -/
def cfgDirExample : BuildConfig := { use_directory_urls := true, site_dir := "site" }

/-- C1's example source set `{guide.md, guide.en.md}`. -/
def filesC1 : List File := [mkFile "guide.md" cfgDirExample, mkFile "guide.en.md" cfgDirExample]

/-- C1's plugin configuration: default `en`, additional language `fr`. -/
def pcC1 : PluginConfig :=
  { default_language := "en", languages := ["fr"], default_language_only := false }

/-- C1: resolution tries `b.L.s`, then `b.D.s`, then `b.s`, and the first
source file that exists wins; in the example with default `en`, target `fr`
and sources `{guide.md, guide.en.md}`, the `fr` resolution picks
`guide.en.md` and places it at destination `/fr/guide/index.html` under
directory-style URLs. -/
theorem claim_C1 :
    (∀ (b s L D : String) (files : List File),
      get_page_from_paths
        [pyPath (b ++ "." ++ L ++ s), pyPath (b ++ "." ++ D ++ s), pyPath (b ++ s)] files
      = ((files.find? (fun page => pyPath page.src_path = pyPath (b ++ "." ++ L ++ s)))
         <|> ((files.find? (fun page => pyPath page.src_path = pyPath (b ++ "." ++ D ++ s)))
         <|> (files.find? (fun page => pyPath page.src_path = pyPath (b ++ s))))))
    ∧ get_page_from_paths
        [pyPath "guide.fr.md", pyPath "guide.en.md", pyPath "guide.md"] filesC1
        = some (mkFile "guide.en.md" cfgDirExample)
    ∧ (get_translated_page ["en", "fr"] (mkFile "guide.en.md" cfgDirExample) "fr"
        cfgDirExample).dest_path.asPosix = "/fr/guide/index.html"
    ∧ ((onFiles pcC1 cfgDirExample filesC1).i18n_files.find? (fun p => p.1 = "fr")).map
        (fun p => p.2.map (fun f => (f.src_path, f.dest_path.asPosix)))
        = some [("guide.en.md", "/fr/guide/index.html")] := by
  refine ⟨?_, by decide, by decide, by decide⟩
  intro b s L D files
  simp only [get_page_from_paths]
  cases files.find? (fun page => pyPath page.src_path = pyPath (b ++ "." ++ L ++ s)) <;>
    cases files.find? (fun page => pyPath page.src_path = pyPath (b ++ "." ++ D ++ s)) <;>
      cases files.find? (fun page => pyPath page.src_path = pyPath (b ++ s)) <;> rfl

/-! ## Claim C10: unconfigured locale tags are not recognized -/

/-- C10: a filename tag is recognized only relative to the configured
language set — whether the tag is a syntactically valid locale code plays no
role.  For a file `<ds>/<stem>.<tag>.<ext>` whose `tag` is not among the
configured languages, `_get_page_lang` returns no locale, and
`_get_base_path` strips only the final suffix, so the BasePath retains the
unrecognized tag (`<ds>/<stem>.<tag>`). -/
theorem claim_C10 :
    ∀ (page : File) (all_languages : List String) (ds : List String) (stem tag ext : String),
    pyPath page.src_path = ⟨false, ds ++ [stem ++ "." ++ tag ++ "." ++ ext]⟩ →
    '.' ∉ stem.toList → stem ≠ "" →
    '.' ∉ tag.toList →
    '.' ∉ ext.toList → ext ≠ "" →
    tag ∉ all_languages →
    get_page_lang all_languages page = none
    ∧ get_base_path all_languages page = ⟨false, ds ++ [stem ++ "." ++ tag]⟩ := by
  intro page langs ds stem tag ext hparse hs hsne ht he hene htag
  have hname : (pyPath page.src_path).name = stem ++ "." ++ tag ++ "." ++ ext := by
    rw [hparse]
    exact name_concat ..
  have hlang : get_page_lang langs page = none := by
    show langs.find? (fun l => is_translation_for page.src_path l) = none
    exact find?_translation_none page.src_path stem tag ext langs hname hs hsne ht he hene htag
  refine ⟨hlang, ?_⟩
  unfold get_base_path
  rw [hlang, hparse, withSuffix_concat, str_append_empty,
    nameStem_tagged (stem ++ "." ++ tag) ext (tagged_ne_empty stem tag) he hene]

/-- Witness for C10: `page.es.md` with configured languages `{en, fr}`. -/
theorem claim_C10_witness :
    get_page_lang ["en", "fr"] (mkFile "page.es.md" cfgDirExample) = none
    ∧ get_base_path ["en", "fr"] (mkFile "page.es.md" cfgDirExample)
        = ⟨false, [] ++ ["page" ++ "." ++ "es"]⟩ :=
  claim_C10 (mkFile "page.es.md" cfgDirExample) ["en", "fr"] [] "page" "es" "md"
    (by decide) (by decide) (by decide) (by decide) (by decide) (by decide) (by decide)

/-! ## Claim C6: asset derivation strips the tag and keeps the suffix -/

theorem str_append_assoc (a b c : String) : a ++ (b ++ c) = (a ++ b) ++ c := by
  refine string_eq_of_toList _ _ ?_
  rw [toList_append, toList_append, toList_append, toList_append, List.append_assoc]

theorem tagged_ne_dot (a b : String) (ha : a ≠ "") : a ++ "." ++ b ≠ "." := by
  intro heq
  have htl := congrArg String.toList heq
  rw [toList_tagged] at htl
  have h2 : ("." : String).toList = ['.'] := rfl
  rw [h2] at htl
  have hlen := congrArg List.length htl
  rw [List.length_append, List.length_cons, List.length_singleton] at hlen
  have ha1 : 0 < a.toList.length := List.length_pos.mpr (toList_ne_nil a ha)
  omega

theorem goodComp_tagged (a b : String) (ha : a ≠ "") (hsa : '/' ∉ a.toList)
    (hsb : '/' ∉ b.toList) : goodComp (a ++ "." ++ b) := by
  refine ⟨tagged_ne_empty a b, tagged_ne_dot a b ha, ?_⟩
  rw [toList_tagged]
  intro hmem
  rcases List.mem_append.mp hmem with h | h
  · exact hsa h
  · rcases List.mem_cons.mp h with h' | h'
    · cases h'
    · exact hsb h'

/-- Non-root asset derivation (the `else` branch, plugin.py:235-242): the
destination is the suffix-stripped parent joined with
`<stripped name><suffix>`; a dot-free final parent component is preserved
unchanged. -/
theorem get_i18n_asset_nested (page : File) (lang : String) (config : BuildConfig)
    (sfx : String) (ds : List String) (dn fname : String) (hdndot : '.' ∉ dn.toList)
    (hdest : page.dest_path = ⟨false, ds ++ [dn, fname]⟩) :
    (get_i18n_asset page lang config sfx).dest_path
      = ⟨false, ds ++ [dn] ++ (pyPath (nameStem page.name ++ sfx)).parts⟩
    ∧ (get_i18n_asset page lang config sfx).url
      = PyPath.asPosix ⟨false, ds ++ [dn] ++ (pyPath (nameStem page.name ++ sfx)).parts⟩ := by
  have hsplit : ds ++ [dn, fname] = (ds ++ [dn]) ++ [fname] := by simp
  have hpar : PyPath.parent ⟨false, ds ++ [dn, fname]⟩ = ⟨false, ds ++ [dn]⟩ := by
    rw [hsplit]
    exact parent_concat false (ds ++ [dn]) fname
  have hroot : ¬PyPath.parent ⟨false, ds ++ [dn, fname]⟩ = pyPath "." := by
    rw [hpar]
    intro h
    have h2 : pyPath "." = (⟨false, []⟩ : PyPath) := by decide
    rw [h2] at h
    have h3 := congrArg PyPath.parts h
    simp at h3
  have hws : PyPath.withSuffix ⟨false, ds ++ [dn]⟩ "" = ⟨false, ds ++ [dn]⟩ := by
    rw [withSuffix_concat, str_append_empty, nameStem_plain dn hdndot]
  unfold get_i18n_asset
  rw [hdest, if_neg hroot, hpar, hws]
  exact ⟨rfl, rfl⟩

/-- C6: for every locale-tagged generic asset `<stem>.<tag>.<ext>`,
derivation removes the locale tag and preserves the original suffix.  At the
tree root the destination and URL are the single component `<stem>.<ext>` —
no spurious leading parent segment — and locale prefixing yields
`/{language}/<stem>.<ext>`; under a (dot-free) parent directory the
destination is `<parent>/<stem>.<ext>` with the parent preserved, prefixed
to `/{language}/<parent>/<stem>.<ext>`. -/
theorem claim_C6 :
    ∀ (page : File) (all_languages : List String) (language : String) (config : BuildConfig)
      (ds : List String) (dn : String) (stem tag ext : String),
    page.name = stem ++ "." ++ tag →
    (pyPath page.src_path).name = stem ++ "." ++ tag ++ "." ++ ext →
    '.' ∉ stem.toList → stem ≠ "" → '/' ∉ stem.toList →
    '.' ∉ tag.toList → tag ≠ "" →
    '.' ∉ ext.toList → ext ≠ "" → '/' ∉ ext.toList →
    tag ∈ all_languages →
    language ≠ "" → language ≠ "." → '/' ∉ language.toList →
    (∀ c ∈ ds, goodComp c) → goodComp dn → '.' ∉ dn.toList →
    (page.dest_path = ⟨false, [stem ++ "." ++ tag ++ "." ++ ext]⟩ →
      (get_i18n_asset page tag config ("." ++ ext)).dest_path = ⟨false, [stem ++ "." ++ ext]⟩
      ∧ (get_i18n_asset page tag config ("." ++ ext)).url = stem ++ "." ++ ext
      ∧ (get_translated_asset all_languages page language config ("." ++ ext)).dest_path
          = ⟨true, [language, stem ++ "." ++ ext]⟩)
    ∧ (page.dest_path = ⟨false, ds ++ [dn, stem ++ "." ++ tag ++ "." ++ ext]⟩ →
      (get_i18n_asset page tag config ("." ++ ext)).dest_path
          = ⟨false, ds ++ [dn, stem ++ "." ++ ext]⟩
      ∧ (get_i18n_asset page tag config ("." ++ ext)).url
          = joinParts (ds ++ [dn, stem ++ "." ++ ext])
      ∧ (get_translated_asset all_languages page language config ("." ++ ext)).dest_path
          = ⟨true, language :: (ds ++ [dn, stem ++ "." ++ ext])⟩) := by
  intro page langs language config ds dn stem tag ext hnm hsrcname hs hsne hssl ht htne he
    hene hesl htag hl1 hl2 hl3 hds hdn hdndot
  have hstem : nameStem page.name = stem := by
    rw [hnm]
    exact nameStem_tagged stem tag hsne ht htne
  have hassoc : nameStem page.name ++ ("." ++ ext) = stem ++ "." ++ ext := by
    rw [hstem, str_append_assoc]
  have hgood : goodComp (stem ++ "." ++ ext) := goodComp_tagged stem ext hsne hssl hesl
  have hfind : langs.find? (fun l => is_translation_for page.src_path l) = some tag :=
    find?_translation_some page.src_path stem tag ext langs hsrcname hs hsne ht he hene htag
  constructor
  · intro hdest
    obtain ⟨hd, hu⟩ := get_i18n_asset_root page tag config ("." ++ ext) _ hdest
    have hd' : (get_i18n_asset page tag config ("." ++ ext)).dest_path
        = ⟨false, [stem ++ "." ++ ext]⟩ := by
      rw [hd, hassoc, pyPath_single _ hgood]
    have hu' : (get_i18n_asset page tag config ("." ++ ext)).url = stem ++ "." ++ ext := by
      rw [hu, hassoc, pyPath_single _ hgood, asPosix_rel _ (by simp)]
      rfl
    refine ⟨hd', hu', ?_⟩
    obtain ⟨hA, hP⟩ := get_translated_asset_tagged_dest langs page language config
      ("." ++ ext) tag hfind hl1 hl2 hl3
    refine PyPath.eq_of _ _ _ hA ?_
    rw [hP, hd', asPosix_rel _ (by simp)]
    have hjp : joinParts [stem ++ "." ++ ext] = stem ++ "." ++ ext := rfl
    rw [hjp, pyPath_single _ hgood]
  · intro hdest
    obtain ⟨hd, hu⟩ := get_i18n_asset_nested page tag config ("." ++ ext) ds dn _
      hdndot hdest
    have hlist : ds ++ [dn] ++ (pyPath (nameStem page.name ++ ("." ++ ext))).parts
        = ds ++ [dn, stem ++ "." ++ ext] := by
      rw [hassoc, pyPath_single _ hgood]
      simp
    have hd' : (get_i18n_asset page tag config ("." ++ ext)).dest_path
        = ⟨false, ds ++ [dn, stem ++ "." ++ ext]⟩ := by
      rw [hd, hlist]
    have hu' : (get_i18n_asset page tag config ("." ++ ext)).url
        = joinParts (ds ++ [dn, stem ++ "." ++ ext]) := by
      rw [hu, hlist, asPosix_rel _ (by simp)]
    refine ⟨hd', hu', ?_⟩
    have hall : ∀ c ∈ ds ++ [dn, stem ++ "." ++ ext], goodComp c := by
      intro c hc
      rcases List.mem_append.mp hc with h | h
      · exact hds c h
      · rcases List.mem_cons.mp h with rfl | h'
        · exact hdn
        · rcases List.mem_cons.mp h' with rfl | h''
          · exact hgood
          · cases h''
    obtain ⟨hA, hP⟩ := get_translated_asset_tagged_dest langs page language config
      ("." ++ ext) tag hfind hl1 hl2 hl3
    refine PyPath.eq_of _ _ _ hA ?_
    rw [hP, hd', asPosix_rel _ (by simp), pyPath_joinParts _ hall (by simp)]

/-- Witness for C6: the root-level asset `logo.fr.png` and the nested asset
`img/logo.fr.png`, both resolved for `fr` among languages `{en, fr}`. -/
theorem claim_C6_witness :
    ((get_i18n_asset (mkFile "logo.fr.png" cfgDirExample) "fr" cfgDirExample
        ("." ++ "png")).dest_path = ⟨false, ["logo" ++ "." ++ "png"]⟩
     ∧ (get_i18n_asset (mkFile "logo.fr.png" cfgDirExample) "fr" cfgDirExample
        ("." ++ "png")).url = "logo" ++ "." ++ "png"
     ∧ (get_translated_asset ["en", "fr"] (mkFile "logo.fr.png" cfgDirExample) "fr"
        cfgDirExample ("." ++ "png")).dest_path = ⟨true, ["fr", "logo" ++ "." ++ "png"]⟩)
    ∧ ((get_i18n_asset (mkFile "img/logo.fr.png" cfgDirExample) "fr" cfgDirExample
        ("." ++ "png")).dest_path = ⟨false, [] ++ ["img", "logo" ++ "." ++ "png"]⟩
     ∧ (get_i18n_asset (mkFile "img/logo.fr.png" cfgDirExample) "fr" cfgDirExample
        ("." ++ "png")).url = joinParts ([] ++ ["img", "logo" ++ "." ++ "png"])
     ∧ (get_translated_asset ["en", "fr"] (mkFile "img/logo.fr.png" cfgDirExample) "fr"
        cfgDirExample ("." ++ "png")).dest_path
          = ⟨true, "fr" :: ([] ++ ["img", "logo" ++ "." ++ "png"])⟩) :=
  ⟨(claim_C6 (mkFile "logo.fr.png" cfgDirExample) ["en", "fr"] "fr" cfgDirExample
      [] "d" "logo" "fr" "png" (by decide) (by decide) (by decide) (by decide) (by decide)
      (by decide) (by decide) (by decide) (by decide) (by decide) (by decide) (by decide)
      (by decide) (by decide) (by decide) (by decide) (by decide)).1 (by decide),
   (claim_C6 (mkFile "img/logo.fr.png" cfgDirExample) ["en", "fr"] "fr" cfgDirExample
      [] "img" "logo" "fr" "png" (by decide) (by decide) (by decide) (by decide) (by decide)
      (by decide) (by decide) (by decide) (by decide) (by decide) (by decide) (by decide)
      (by decide) (by decide) (by decide) (by decide) (by decide)).2 (by decide)⟩

/-! ## Claim C4: directory-style URLs never contain `index.html` -/

theorem get_translated_page_url (all_languages : List String) (page : File)
    (language : String) (config : BuildConfig) :
    (get_translated_page all_languages page language config).url =
      (if (match all_languages.find? (fun lang => is_translation_for page.src_path lang) with
           | some lang => get_i18n_page page lang config
           | none => page).url = "."
       then language ++ "/"
       else language ++ "/"
         ++ (match all_languages.find? (fun lang => is_translation_for page.src_path lang) with
             | some lang => get_i18n_page page lang config
             | none => page).url) := rfl

theorem not_occursIn_slash_suffix (n : List Char) (u : String) (hsl : '/' ∉ n) (hne : n ≠ [])
    (hu : ¬occursIn n u.toList) : ¬occursIn n (u ++ "/").toList := by
  have htl : (u ++ "/").toList = u.toList ++ '/' :: [] := by
    rw [toList_append]
    rfl
  rw [htl]
  exact not_occursIn_append_sep n '/' u.toList [] hsl hne hu
    (fun h => hne (occursIn_nil n h))

theorem not_occursIn_lang_prefixed (n : List Char) (language u : String) (hsl : '/' ∉ n)
    (hne : n ≠ []) (hlang : ¬occursIn n language.toList) (hu : ¬occursIn n u.toList) :
    ¬occursIn n (language ++ "/" ++ u).toList := by
  have htl : (language ++ "/" ++ u).toList = language.toList ++ '/' :: u.toList := by
    rw [toList_append, toList_append]
    simp [String.toList]
  rw [htl]
  exact not_occursIn_append_sep n '/' language.toList u.toList hsl hne hlang hu

/-- C4: under directory-style URLs the derived URL of a resolved document
never contains the literal `index.html` (given that no source path component
and no locale code contains it); for a document whose stem is `index`, the
URL is the parent directory path plus a trailing slash, collapsing to `"."`
at the tree root; a root-level `index.md` resolved into the main (default
locale) tree has URL `"."`, and resolved for locale `fr` has URL `"fr/"`. -/
theorem claim_C4 :
    ∀ (page : File) (lang language : String) (config : BuildConfig)
      (all_languages : List String) (ds : List String) (dn : String),
    config.use_directory_urls = true →
    page.dest_path = ⟨false, ds ++ [dn, "index.html"]⟩ →
    (∀ c ∈ ds, goodComp c) →
    (∀ c ∈ ds, ¬occursIn "index.html".toList c.toList) →
    ¬occursIn "index.html".toList dn.toList →
    ¬occursIn "index.html".toList page.url.toList →
    ¬occursIn "index.html".toList language.toList →
    (¬occursIn "index.html".toList (get_i18n_page page lang config).url.toList
     ∧ (nameStem page.name = "index" →
         (get_i18n_page page lang config).url = if ds = [] then "." else joinParts ds ++ "/")
     ∧ ¬occursIn "index.html".toList
         (get_translated_page all_languages page language config).url.toList)
    ∧ ((mkFile "index.md" cfgDirExample).url = "."
       ∧ (get_translated_page ["en", "fr"] (mkFile "index.md" cfgDirExample) "fr"
            cfgDirExample).url = "fr/") := by
  intro page lang language config langs ds dn hdir hdest hgood hocc hdn hpurl hlang
  have hsl : '/' ∉ "index.html".toList := by decide
  have hne : "index.html".toList ≠ [] := by decide
  have hdot : ¬occursIn "index.html".toList (("." : String)).toList := by decide
  have hurl := get_i18n_page_url page lang config hdir ds dn hdest hgood
  have hmain : ¬occursIn "index.html".toList (get_i18n_page page lang config).url.toList := by
    rw [hurl]
    by_cases hnm : nameStem page.name = "index"
    · rw [if_pos hnm]
      by_cases hds : ds = []
      · rw [if_pos hds]
        exact hdot
      · rw [if_neg hds]
        exact not_occursIn_slash_suffix _ _ hsl hne
          (not_occursIn_joinParts _ ds hsl hne hocc)
    · rw [if_neg hnm]
      refine not_occursIn_slash_suffix _ _ hsl hne
        (not_occursIn_joinParts _ (ds ++ [nameStem dn]) hsl hne ?_)
      intro c hc
      rcases List.mem_append.mp hc with h | h
      · exact hocc c h
      · rcases List.mem_singleton.mp h with rfl
        exact not_occursIn_nameStem _ dn hdn
  refine ⟨⟨hmain, ?_, ?_⟩, by decide, by decide⟩
  · intro hnm
    rw [hurl, if_pos hnm]
  · rw [get_translated_page_url]
    have hi18n : ¬occursIn "index.html".toList
        (match langs.find? (fun l => is_translation_for page.src_path l) with
         | some l => get_i18n_page page l config
         | none => page).url.toList := by
      cases hf : langs.find? (fun l => is_translation_for page.src_path l) with
      | some l0 =>
        show ¬occursIn "index.html".toList (get_i18n_page page l0 config).url.toList
        exact hmain
      | none =>
        show ¬occursIn "index.html".toList page.url.toList
        exact hpurl
    by_cases hd : (match langs.find? (fun l => is_translation_for page.src_path l) with
         | some l => get_i18n_page page l config
         | none => page).url = "."
    · rw [if_pos hd]
      exact not_occursIn_slash_suffix _ _ hsl hne hlang
    · rw [if_neg hd]
      exact not_occursIn_lang_prefixed _ language _ hsl hne hlang hi18n

/-- Witness for C4: `sub/index.fr.md` under directory-style URLs. -/
theorem claim_C4_witness :
    ¬occursIn "index.html".toList
      (get_i18n_page (mkFile "sub/index.fr.md" cfgDirExample) "fr" cfgDirExample).url.toList
    ∧ (get_i18n_page (mkFile "sub/index.fr.md" cfgDirExample) "fr" cfgDirExample).url
        = if ["sub"] = ([] : List String) then "." else joinParts ["sub"] ++ "/" := by
  have h := claim_C4 (mkFile "sub/index.fr.md" cfgDirExample) "fr" "fr" cfgDirExample
    ["en", "fr"] ["sub"] "index.fr" (by decide) (by decide) (by decide) (by decide)
    (by decide) (by decide) (by decide)
  exact ⟨h.1.1, h.1.2.1 (by decide)⟩

/-! ## Claim C5: locale prefixing of destinations (corrected) -/

/-- The end-to-end example's plugin configuration (`en` default, `fr`
additional). -/
def pcExample : PluginConfig :=
  { default_language := "en", languages := ["en", "fr"], default_language_only := false }

/-- The end-to-end example's source set. -/
def filesExample : List File :=
  [mkFile "index.md" cfgDirExample, mkFile "index.fr.md" cfgDirExample,
   mkFile "about.md" cfgDirExample, mkFile "logo.png" cfgDirExample]

/-- The `fr` file tree built by `on_files` for the end-to-end example. -/
def frTreeExample : List File :=
  (((onFiles pcExample cfgDirExample filesExample).i18n_files.find?
    (fun p => p.1 = "fr")).map (fun p => p.2)).getD []

/-- C5 counterexample: in the end-to-end example the `fr` tree's entry for
the untagged asset `logo.png` keeps destination `logo.png` — it is *not*
prefixed with `/fr/` (so the `fr` build does not output `fr/logo.png`),
refuting the claim for assets resolved by fallback from an untagged source. -/
theorem claim_C5_counterexample :
    frTreeExample.map (fun f => (f.src_path, f.dest_path.asPosix))
      = [("index.fr.md", "/fr/index.html"), ("about.md", "/fr/about/index.html"),
         ("logo.png", "logo.png")]
    ∧ ¬(∀ f ∈ frTreeExample, f.dest_path.isAbs = true
          ∧ f.dest_path.parts.head? = some "fr") := by
  exact ⟨by decide, by decide⟩

/-- C5 (amended): every *page* resolved for locale `L` gets the `/{L}/`
destination prefix, and so does every locale-*tagged* asset; an asset with
no configured locale tag is returned unchanged (shared, unprefixed); in the
end-to-end example the `fr` build outputs `fr/index.html` and
`fr/about/index.html` but shares the root `logo.png`. -/
theorem claim_C5_amended :
    ∀ (all_languages : List String) (page : File) (language : String)
      (config : BuildConfig) (sfx tag : String),
    language ≠ "" → language ≠ "." → '/' ∉ language.toList →
    ((get_translated_page all_languages page language config).dest_path.isAbs = true
     ∧ ∃ qs, (get_translated_page all_languages page language config).dest_path.parts
         = language :: qs)
    ∧ (all_languages.find? (fun l => is_translation_for page.src_path l) = some tag →
        (get_translated_asset all_languages page language config sfx).dest_path.isAbs = true
        ∧ ∃ qs, (get_translated_asset all_languages page language config sfx).dest_path.parts
            = language :: qs)
    ∧ ((∀ l ∈ all_languages, is_translation_for page.src_path l = false) →
        get_translated_asset all_languages page language config sfx = page)
    ∧ frTreeExample.map (fun f => (f.src_path, f.dest_path.asPosix))
        = [("index.fr.md", "/fr/index.html"), ("about.md", "/fr/about/index.html"),
           ("logo.png", "logo.png")] := by
  intro langs page language config sfx tag h1 h2 h3
  refine ⟨get_translated_page_dest langs page language config h1 h2 h3, ?_, ?_, by decide⟩
  · intro hfind
    obtain ⟨hA, hP⟩ :=
      get_translated_asset_tagged_dest langs page language config sfx tag hfind h1 h2 h3
    exact ⟨hA, _, hP⟩
  · intro hnone
    exact get_translated_asset_untagged langs page language config sfx hnone

/-- Witness for C5 (amended): the fallback page `about.md` is prefixed for
`fr`; the untagged asset `logo.png` is returned unchanged. -/
theorem claim_C5_witness :
    ((get_translated_page ["en", "fr"] (mkFile "about.md" cfgDirExample) "fr"
        cfgDirExample).dest_path.isAbs = true
     ∧ ∃ qs, (get_translated_page ["en", "fr"] (mkFile "about.md" cfgDirExample) "fr"
        cfgDirExample).dest_path.parts = "fr" :: qs)
    ∧ get_translated_asset ["en", "fr"] (mkFile "logo.png" cfgDirExample) "fr"
        cfgDirExample ".png" = mkFile "logo.png" cfgDirExample := by
  have hp := claim_C5_amended ["en", "fr"] (mkFile "about.md" cfgDirExample) "fr"
    cfgDirExample ".png" "xx" (by decide) (by decide) (by decide)
  have ha := claim_C5_amended ["en", "fr"] (mkFile "logo.png" cfgDirExample) "fr"
    cfgDirExample ".png" "xx" (by decide) (by decide) (by decide)
  exact ⟨hp.1, ha.2.2.1 (by decide)⟩

/-! ## Claim C7: the BasePath dedup key is skipped under
`default_language_only` (code bug) -/

/-- C7's failing configuration: `default_language_only = true`. -/
def pcBugC7 : PluginConfig :=
  { default_language := "en", languages := ["fr"], default_language_only := true }

/-- C7's source set: two tag variants of the same logical document. -/
def filesC7 : List File :=
  [mkFile "index.md" cfgDirExample, mkFile "index.fr.md" cfgDirExample]

/-- C7: the `base_paths` dedup key is only recorded inside the per-language
loop, which `default_language_only` skips (`continue` before
`base_paths.add`, plugin.py:438-440 vs 466).  With sources
`{index.md, index.fr.md}` and `default_language_only = true` the main tree
receives the untagged `index.md` *twice*; with `default_language_only =
false` the dedup works and it appears once. -/
theorem claim_C7_bug :
    (onFiles pcBugC7 cfgDirExample filesC7).main_files.map File.src_path
      = ["index.md", "index.md"]
    ∧ (onFiles { pcBugC7 with default_language_only := false } cfgDirExample
        filesC7).main_files.map File.src_path = ["index.md"] := by
  exact ⟨by decide, by decide⟩

/-! ## Claim C3: index containment and lookup (corrected) -/

theorem lookupStr_of_mem_nodup (m : List (String × File)) (kv : String × File)
    (hmem : kv ∈ m) (hnd : (m.map (fun kv => kv.1)).Nodup) :
    lookupStr m kv.1 = some kv.2 := by
  induction m with
  | nil => cases hmem
  | cons a rest ih =>
    rw [List.map_cons] at hnd
    rcases List.mem_cons.mp hmem with rfl | hmem'
    · unfold lookupStr
      rw [List.find?_cons_of_pos _ (by simp)]
      rfl
    · have hnd' : (rest.map (fun kv => kv.1)).Nodup := (List.nodup_cons.mp hnd).2
      have hne : ¬a.1 = kv.1 := by
        intro he
        apply (List.nodup_cons.mp hnd).1
        rw [he]
        exact List.mem_map_of_mem (fun kv => kv.1) hmem'
      unfold lookupStr
      rw [List.find?_cons_of_neg _ (by simp [hne])]
      exact ih hmem' hnd'

/-- The index of C3's counterexample: `fr` locale over sources
`{guide.md, guide.fr.md}`, with the untagged file stored first. -/
def idxC3 : I18nFilesIdx :=
  { locale := "fr", default_locale := "en",
    src_paths := [("guide.md", mkFile "guide.md" cfgDirExample),
                  ("guide.fr.md", mkFile "guide.fr.md" cfgDirExample)],
    translated := false }

/-- C3 counterexample: querying `guide.md` against an index that holds both
`guide.md` (first) and the target-locale variant `guide.fr.md`:
`get_file_from_path` returns the *untagged* entry, not the target-locale
variant the claimed fallback priority requires — the candidate order is not
the priority, insertion order is. -/
theorem claim_C3_counterexample :
    idxC3.containsPath "guide.md" = true
    ∧ ("guide.fr.md", mkFile "guide.fr.md" cfgDirExample) ∈ idxC3.src_paths
    ∧ pyPath "guide.fr.md" ∈ expectedSrcPaths idxC3.locale idxC3.default_locale "guide.md"
    ∧ idxC3.get_file_from_path "guide.md" = some (mkFile "guide.md" cfgDirExample)
    ∧ ¬idxC3.get_file_from_path "guide.md" = some (mkFile "guide.fr.md" cfgDirExample) := by
  refine ⟨by decide, by decide, by decide, by decide, by decide⟩

/-- C3 (amended): `contains` is true iff some index entry's source path is
one of the three fallback candidates (target-locale variant,
default-locale variant, the path itself); `getEntryForPath` returns the
entry of the *first index entry in insertion order* whose source path is any
candidate — which coincides with the fallback priority only when at most one
candidate is present — and `absent` when none matches.  (Stated for indexes
whose keys are normalized and duplicate-free, as MkDocs' `Files.src_paths`
dict guarantees.) -/
theorem claim_C3_amended :
    ∀ (idx : I18nFilesIdx) (path : String),
    (∀ kv ∈ idx.src_paths, normpath kv.1 = kv.1) →
    (idx.src_paths.map (fun kv => kv.1)).Nodup →
    (idx.containsPath path = true ↔
       ∃ kv ∈ idx.src_paths,
         pyPath kv.1 ∈ expectedSrcPaths idx.locale idx.default_locale path)
    ∧ idx.get_file_from_path path
        = (idx.src_paths.find? (fun kv =>
             (expectedSrcPaths idx.locale idx.default_locale path).contains
               (pyPath kv.1))).map (fun kv => kv.2) := by
  intro idx path hkeys hnd
  constructor
  · unfold I18nFilesIdx.containsPath
    rw [List.any_eq_true]
    constructor
    · rintro ⟨kv, hkv, hc⟩
      exact ⟨kv, hkv, by simpa using hc⟩
    · rintro ⟨kv, hkv, hc⟩
      exact ⟨kv, hkv, by simpa using hc⟩
  · unfold I18nFilesIdx.get_file_from_path
    cases hf : idx.src_paths.find? (fun kv =>
        (expectedSrcPaths idx.locale idx.default_locale path).contains (pyPath kv.1)) with
    | none => rfl
    | some kv =>
      have hmem : kv ∈ idx.src_paths := List.mem_of_find?_eq_some hf
      show lookupStr idx.src_paths (normpath kv.1) = some kv.2
      rw [hkeys kv hmem]
      exact lookupStr_of_mem_nodup idx.src_paths kv hmem hnd

/-- Witness for C3 (amended) at the concrete index. -/
theorem claim_C3_witness :
    idxC3.containsPath "guide.md" = true ∧ idxC3.get_file_from_path "other.md" = none := by
  have h1 := claim_C3_amended idxC3 "guide.md" (by decide) (by decide)
  have h2 := claim_C3_amended idxC3 "other.md" (by decide) (by decide)
  refine ⟨h1.1.mpr ⟨("guide.md", mkFile "guide.md" cfgDirExample), by decide, by decide⟩, ?_⟩
  rw [h2.2]
  decide

/-! ## Claim C8: search deduplication -/

/-- C8: for any indexed texts, the deduplicator invoked for the prefix
locale removes the locale-prefixed entry `{location: "fr/guide/", text: t}`
exactly when a default-tree entry `{location: "guide/", text: t}` with
byte-identical text exists, and keeps both entries when the texts differ. -/
theorem claim_C8 :
    ∀ t u : String,
    fix_search_duplicates "fr" [⟨"guide/", t⟩, ⟨"fr/guide/", t⟩] = [⟨"guide/", t⟩]
    ∧ (t ≠ u →
        fix_search_duplicates "fr" [⟨"guide/", t⟩, ⟨"fr/guide/", u⟩]
          = [⟨"guide/", t⟩, ⟨"fr/guide/", u⟩]) := by
  intro t u
  constructor
  · simp only [fix_search_duplicates, List.foldl_cons, List.foldl_nil]
    have h1 : fixStep "fr" [⟨"guide/", t⟩, ⟨"fr/guide/", t⟩] ⟨"guide/", t⟩
        = [⟨"guide/", t⟩, ⟨"fr/guide/", t⟩] := by
      unfold fixStep
      rw [if_neg]
      show ¬strStartsWith "guide/" ("fr" ++ "/") = true
      decide
    rw [h1]
    unfold fixStep
    rw [if_pos]
    case hc =>
      show strStartsWith "fr/guide/" ("fr" ++ "/") = true
      decide
    have hc1 : dedupCond "fr" ⟨"fr/guide/", t⟩ ⟨"guide/", t⟩ = true := by
      show ((["fr" ++ "/" ++ "guide/", "fr" ++ "/" ++ rstripSlash "guide/",
             "fr" ++ "/" ++ strReplace "guide/" "/#" "#"].contains "fr/guide/")
          && (t == t)) = true
      rw [beq_self_eq_true, Bool.and_true]
      decide
    have hne12 : ¬((⟨"guide/", t⟩ : SearchEntry) == ⟨"fr/guide/", t⟩) = true := by
      intro hbeq
      have h := congrArg SearchEntry.location (eq_of_beq hbeq)
      have h2 : ("guide/" : String) = "fr/guide/" := h
      exact absurd h2 (by decide)
    have herase : ([⟨"guide/", t⟩, ⟨"fr/guide/", t⟩] : List SearchEntry).erase
        ⟨"fr/guide/", t⟩ = [⟨"guide/", t⟩] := by
      rw [List.erase_cons_tail hne12, List.erase_cons_head]
    have s1 : fixLoop "fr" ⟨"fr/guide/", t⟩ 2 0 [⟨"guide/", t⟩, ⟨"fr/guide/", t⟩]
        = fixLoop "fr" ⟨"fr/guide/", t⟩ 1 1 [⟨"guide/", t⟩] := by
      show fixLoop "fr" ⟨"fr/guide/", t⟩ (1 + 1) 0 [⟨"guide/", t⟩, ⟨"fr/guide/", t⟩] = _
      rw [fixLoop]
      simp only [List.get?, hc1, if_true, herase]
    have s2 : fixLoop "fr" ⟨"fr/guide/", t⟩ 1 1 [⟨"guide/", t⟩] = [⟨"guide/", t⟩] := by
      show fixLoop "fr" ⟨"fr/guide/", t⟩ (0 + 1) 1 [⟨"guide/", t⟩] = _
      rw [fixLoop]
      simp only [List.get?]
    show fixLoop "fr" ⟨"fr/guide/", t⟩
        ([⟨"guide/", t⟩, ⟨"fr/guide/", t⟩] : List SearchEntry).length 0
        [⟨"guide/", t⟩, ⟨"fr/guide/", t⟩] = [⟨"guide/", t⟩]
    rw [show ([⟨"guide/", t⟩, ⟨"fr/guide/", t⟩] : List SearchEntry).length = 2 from rfl,
      s1, s2]
  · intro hne
    simp only [fix_search_duplicates, List.foldl_cons, List.foldl_nil]
    have h1 : fixStep "fr" [⟨"guide/", t⟩, ⟨"fr/guide/", u⟩] ⟨"guide/", t⟩
        = [⟨"guide/", t⟩, ⟨"fr/guide/", u⟩] := by
      unfold fixStep
      rw [if_neg]
      show ¬strStartsWith "guide/" ("fr" ++ "/") = true
      decide
    rw [h1]
    unfold fixStep
    rw [if_pos]
    case hc =>
      show strStartsWith "fr/guide/" ("fr" ++ "/") = true
      decide
    have hbeq : (u == t) = false := by
      rw [beq_eq_false_iff_ne]
      exact fun h => hne h.symm
    have hc2 : dedupCond "fr" ⟨"fr/guide/", u⟩ ⟨"guide/", t⟩ = false := by
      show ((["fr" ++ "/" ++ "guide/", "fr" ++ "/" ++ rstripSlash "guide/",
             "fr" ++ "/" ++ strReplace "guide/" "/#" "#"].contains "fr/guide/")
          && (u == t)) = false
      rw [hbeq, Bool.and_false]
    have hc3 : dedupCond "fr" ⟨"fr/guide/", u⟩ ⟨"fr/guide/", u⟩ = false := by
      show ((["fr" ++ "/" ++ "fr/guide/", "fr" ++ "/" ++ rstripSlash "fr/guide/",
             "fr" ++ "/" ++ strReplace "fr/guide/" "/#" "#"].contains "fr/guide/")
          && (u == u)) = false
      rw [show (["fr" ++ "/" ++ "fr/guide/", "fr" ++ "/" ++ rstripSlash "fr/guide/",
             "fr" ++ "/" ++ strReplace "fr/guide/" "/#" "#"].contains "fr/guide/") = false
        from by decide, Bool.false_and]
    have s1 : fixLoop "fr" ⟨"fr/guide/", u⟩ 2 0 [⟨"guide/", t⟩, ⟨"fr/guide/", u⟩]
        = fixLoop "fr" ⟨"fr/guide/", u⟩ 1 1 [⟨"guide/", t⟩, ⟨"fr/guide/", u⟩] := by
      show fixLoop "fr" ⟨"fr/guide/", u⟩ (1 + 1) 0 [⟨"guide/", t⟩, ⟨"fr/guide/", u⟩] = _
      rw [fixLoop]
      simp only [List.get?, hc2, Bool.false_eq_true, if_false]
    have s2 : fixLoop "fr" ⟨"fr/guide/", u⟩ 1 1 [⟨"guide/", t⟩, ⟨"fr/guide/", u⟩]
        = [⟨"guide/", t⟩, ⟨"fr/guide/", u⟩] := by
      show fixLoop "fr" ⟨"fr/guide/", u⟩ (0 + 1) 1 [⟨"guide/", t⟩, ⟨"fr/guide/", u⟩] = _
      rw [fixLoop]
      simp only [List.get?, hc3, Bool.false_eq_true, if_false]
      rfl
    show fixLoop "fr" ⟨"fr/guide/", u⟩
        ([⟨"guide/", t⟩, ⟨"fr/guide/", u⟩] : List SearchEntry).length 0
        [⟨"guide/", t⟩, ⟨"fr/guide/", u⟩] = [⟨"guide/", t⟩, ⟨"fr/guide/", u⟩]
    rw [show ([⟨"guide/", t⟩, ⟨"fr/guide/", u⟩] : List SearchEntry).length = 2 from rfl,
      s1, s2]

/-- Witness for C8 at concrete texts. -/
theorem claim_C8_witness :
    fix_search_duplicates "fr" [⟨"guide/", "T"⟩, ⟨"fr/guide/", "T"⟩] = [⟨"guide/", "T"⟩]
    ∧ fix_search_duplicates "fr" [⟨"guide/", "T"⟩, ⟨"fr/guide/", "U"⟩]
        = [⟨"guide/", "T"⟩, ⟨"fr/guide/", "U"⟩] :=
  ⟨(claim_C8 "T" "U").1, (claim_C8 "T" "U").2 (by decide)⟩

/-! ## Claim C9: nav-title translation and once-per-index idempotence -/

/-- C9: the plugin's recursive title rewrite equals the spec's node-wise
rewrite — each node's title is replaced exactly when it is a key of the
per-locale table (`retitle`/`lookupTable`), recursing into children — and
`on_nav` is applied exactly once per file-index instance: invoking it again
with the index and nav it returned changes nothing (the `translated` flag). -/
theorem claim_C9 :
    (∀ (table : List (String × String)) (nav : List NavItem),
      translate_navigation table nav = specNavTranslate table nav)
    ∧ (∀ (table : List (String × String)) (t : String),
        lookupTable table t = none ↔ t ∉ table.map (fun kv => kv.1))
    ∧ (∀ (nav_translations : List (String × List (String × String)))
        (files : I18nFilesIdx) (nav : List NavItem),
        on_nav nav_translations (on_nav nav_translations files nav).2
          (on_nav nav_translations files nav).1 = on_nav nav_translations files nav) := by
  refine ⟨translate_navigation_eq_spec, ?_, ?_⟩
  · intro table t
    unfold lookupTable
    rw [Option.map_eq_none', List.find?_eq_none]
    constructor
    · intro h hmem
      obtain ⟨kv, hkv, hkvt⟩ := List.mem_map.mp hmem
      exact h kv hkv (by simp [hkvt])
    · intro h kv hkv
      simp only [decide_eq_true_eq]
      intro he
      exact h (List.mem_map.mpr ⟨kv, hkv, he⟩)
  · intro nt files nav
    unfold on_nav
    by_cases hg : files.translated = false ∧
        ((nt.find? (fun kv => kv.1 = files.locale)).map (fun kv => kv.2)).getD [] ≠ []
    · rw [if_pos hg]
      simp only []
      rw [if_neg]
      intro hg2
      exact absurd hg2.1 (by simp)
    · rw [if_neg hg, if_neg hg]

/-- Witness for C9: a concrete double invocation of `on_nav`. -/
theorem claim_C9_witness :
    on_nav [("fr", [("Home", "Accueil")])]
        (on_nav [("fr", [("Home", "Accueil")])] idxC3
          [NavItem.node (some "Home") []]).2
        (on_nav [("fr", [("Home", "Accueil")])] idxC3
          [NavItem.node (some "Home") []]).1
      = on_nav [("fr", [("Home", "Accueil")])] idxC3 [NavItem.node (some "Home") []] :=
  claim_C9.2.2 [("fr", [("Home", "Accueil")])] idxC3 [NavItem.node (some "Home") []]

end MkdocsI18n
